import Mathlib

/-!
Shallow embedding of the BroSkate real-time notification subsystem
(`app/websocket/connection_manager.py`, `app/websocket/notification_service.py`,
`app/routes/websocket.py`), together with theorems checking the specification's
claims about it.

Python dictionaries are modelled as insertion-ordered association lists over
`Nat` keys (`getA` / `setA` / `eraseA` mirror `d.get(k)` / `d[k] = v` / `del d[k]`).
WebSocket handles are modelled as natural numbers.  Operations that can raise a
Python exception (`list.remove` → `ValueError`, `dict[k]` on a missing key →
`KeyError`) return `Option`, with `none` standing for the raised exception.
-/

namespace BroSkate

/-- `d.get(k)`: first binding of `k` in an insertion-ordered association list. -/
def getA {β : Type} : List (Nat × β) → Nat → Option β
  | [], _ => none
  | (k, v) :: rest, k' => if k = k' then some v else getA rest k'

/-- `d[k] = v`: update the first binding of `k` in place, or append a new one
(Python dicts keep the position of an updated key and append fresh keys). -/
def setA {β : Type} : List (Nat × β) → Nat → β → List (Nat × β)
  | [], k, v => [(k, v)]
  | (k', v') :: rest, k, v =>
    if k' = k then (k, v) :: rest else (k', v') :: setA rest k v

/-- `del d[k]`: remove the first binding of `k` (total; the source only deletes
keys it has just looked up). -/
def eraseA {β : Type} : List (Nat × β) → Nat → List (Nat × β)
  | [], _ => []
  | (k', v') :: rest, k =>
    if k' = k then rest else (k', v') :: eraseA rest k

/-- `lst.remove(x)`: drop the first occurrence of `x`; `none` models the
`ValueError` raised when `x` is absent. -/
def removeFirst : List Nat → Nat → Option (List Nat)
  | [], _ => none
  | x :: rest, y =>
    if x = y then some rest else (removeFirst rest y).map (fun r => x :: r)

/-- `s.add(x)` on a Python set, modelled as a duplicate-free list. -/
def addToSet {α : Type} [DecidableEq α] (s : List α) (x : α) : List α :=
  if x ∈ s then s else s ++ [x]

/-- `s.discard(x)` on a Python set. -/
def discardFromSet {α : Type} [DecidableEq α] (s : List α) (x : α) : List α :=
  s.filter (fun y => y ≠ x)

/-- State of `ConnectionManager`: connections per user, the reverse
websocket-to-user map, and per-user channel subscriptions. -/
structure ConnectionManager where
  active_connections : List (Nat × List Nat)
  user_sessions : List (Nat × Nat)
  subscriptions : List (Nat × List String)
deriving DecidableEq

/-- The freshly constructed manager: three empty dicts. -/
def initManager : ConnectionManager :=
  { active_connections := [], user_sessions := [], subscriptions := [] }

/-- Outbound wire messages the core can emit (§6 of the spec). -/
inductive OutMsg where
  | connection_established
  | subscription_confirmed (channel : String)
  | unsubscription_confirmed (channel : String)
  | pong (timestamp : Option String)
  | unread_count (count : Nat)
  | unread_count_updated (count : Nat)
deriving DecidableEq

/-- `ConnectionManager.connect` (registry mutation part): append the handle to
the user's connection list, record the reverse mapping, and initialise the
subscription set if absent.  The transport `accept` and the
`connection_established` acknowledgement have no effect on registry state. -/
def connect (s : ConnectionManager) (websocket user_id : Nat) : ConnectionManager :=
  let ac := match getA s.active_connections user_id with
    | none => setA s.active_connections user_id [websocket]
    | some l => setA s.active_connections user_id (l ++ [websocket])
  let subs := match getA s.subscriptions user_id with
    | none => setA s.subscriptions user_id []
    | some _ => s.subscriptions
  { active_connections := ac
    user_sessions := setA s.user_sessions websocket user_id
    subscriptions := subs }

/-- `ConnectionManager.disconnect`.  The guard `if user_id and user_id in
self.active_connections` is truthiness-based, so `user_id = 0` skips the
removal from `active_connections`.  `none` models the `ValueError` of
`list.remove` when the handle is missing from the user's list. -/
def disconnect (s : ConnectionManager) (websocket : Nat) : Option ConnectionManager :=
  let step1 : Option ConnectionManager :=
    match getA s.user_sessions websocket with
    | none => some s
    | some user_id =>
      if user_id = 0 then some s
      else
        match getA s.active_connections user_id with
        | none => some s
        | some l =>
          match removeFirst l websocket with
          | none => none
          | some l' =>
            some { s with active_connections :=
              (if l' = [] then eraseA s.active_connections user_id
               else setA s.active_connections user_id l') }
  step1.map (fun s1 =>
    if (getA s1.user_sessions websocket).isSome then
      { s1 with user_sessions := eraseA s1.user_sessions websocket }
    else s1)

/-- `ConnectionManager.is_user_connected`:
`user_id in self.active_connections and len(self.active_connections[user_id]) > 0`. -/
def is_user_connected (s : ConnectionManager) (user_id : Nat) : Bool :=
  match getA s.active_connections user_id with
  | none => false
  | some l => decide (0 < l.length)

/-- `ConnectionManager.get_connected_users`. -/
def get_connected_users (s : ConnectionManager) : List Nat :=
  s.active_connections.map (fun p => p.1)

/-- `ConnectionManager.get_connection_count`. -/
def get_connection_count (s : ConnectionManager) : Nat :=
  (s.active_connections.map (fun p => p.2.length)).sum

/-- `ConnectionManager.subscribe_to_channel`: resolve the handle, and under the
truthiness guard `if user_id` add the channel to the user's subscription set
and send a confirmation.  `self.subscriptions[user_id]` raises `KeyError`
(modelled by `none`) when the key is absent.  The returned message is the
confirmation sent on the handle, if any. -/
def subscribe_to_channel (s : ConnectionManager) (websocket : Nat) (channel : String) :
    Option (ConnectionManager × Option OutMsg) :=
  match getA s.user_sessions websocket with
  | none => some (s, none)
  | some user_id =>
    if user_id = 0 then some (s, none)
    else
      match getA s.subscriptions user_id with
      | none => none
      | some chans =>
        some ({ s with subscriptions := (setA s.subscriptions user_id (addToSet chans channel)) },
          some (OutMsg.subscription_confirmed channel))

/-- `ConnectionManager.unsubscribe_from_channel`: guarded by
`if user_id and channel in self.subscriptions.get(user_id, set())`; uses
`discard`, so it is total. -/
def unsubscribe_from_channel (s : ConnectionManager) (websocket : Nat) (channel : String) :
    ConnectionManager × Option OutMsg :=
  match getA s.user_sessions websocket with
  | none => (s, none)
  | some user_id =>
    if user_id = 0 then (s, none)
    else if channel ∈ (getA s.subscriptions user_id).getD [] then
      ({ s with subscriptions :=
          (setA s.subscriptions user_id
            (discardFromSet ((getA s.subscriptions user_id).getD []) channel)) },
        some (OutMsg.unsubscription_confirmed channel))
    else (s, none)

/-- `ConnectionManager.send_to_user` with an explicit set of handles whose
transport send fails: the failing handles collected during the iteration over
`active_connections[user_id]` are disconnected afterwards, in list order. -/
def send_to_user (s : ConnectionManager) (user_id : Nat) (failed : List Nat) :
    Option ConnectionManager :=
  match getA s.active_connections user_id with
  | none => some s
  | some l => (l.filter (fun h => h ∈ failed)).foldlM disconnect s

/-- The handles that `ConnectionManager.broadcast_to_channel` delivers a
message to when no transport send fails: for each user whose subscription set
contains the channel, every handle in that user's connection list. -/
def broadcast_targets (s : ConnectionManager) (channel : String) : List Nat :=
  s.subscriptions.foldl
    (fun acc p =>
      if channel ∈ p.2 then acc ++ (getA s.active_connections p.1).getD [] else acc)
    []

/-! ## NotificationService (`app/websocket/notification_service.py`)

The wall clock is an explicit input: `tsStr` is the string produced by
`datetime.now().timestamp()` when the identifier is generated, and `ts` is an
abstract chronological reading standing for the `isoformat()` timestamp field
(ISO strings compare lexicographically in chronological order, so a `Nat`
with `≤` is a faithful model of the sort key). -/

/-- A notification dict as built by `send_notification`. -/
structure Notification where
  id : String
  ntype : String
  title : String
  message : String
  data : List (String × String)
  sender_id : Option Nat
  timestamp : Nat
  read : Bool
deriving DecidableEq

/-- State of `NotificationService`: per-user notification lists and per-user
read-identifier sets. -/
structure NotificationService where
  notifications : List (Nat × List Notification)
  read_notifications : List (Nat × List String)
deriving DecidableEq

/-- The freshly constructed service: two empty dicts. -/
def initService : NotificationService :=
  { notifications := [], read_notifications := [] }

/-- `notification_id = f"notif_{datetime.now().timestamp()}_{user_id}"`. -/
def notifId (tsStr : String) (user_id : Nat) : String :=
  "notif_" ++ tsStr ++ "_" ++ Nat.repr user_id

/-- The per-user storage step of `send_notification`: append, then
`if len(...) > 100: keep the last 100` (`[-100:]`). -/
def capAppend (l : List Notification) (n : Notification) : List Notification :=
  let l' := l ++ [n]
  if 100 < l'.length then l'.drop (l'.length - 100) else l'

/-- Result of `NotificationService.send_notification`: the new store state,
the messages handed to `manager.send_to_user` (the live push, conditional on
the user being connected), and the returned identifier. -/
structure SendResult where
  state : NotificationService
  pushed : List Notification
  ret : String
deriving DecidableEq

/-- The notification dict built by `send_notification` before storing. -/
def builtNotification (tsStr : String) (ts : Nat) (user_id : Nat)
    (notification_type title message : String) (data : List (String × String))
    (sender_id : Option Nat) : Notification :=
  { id := notifId tsStr user_id
    ntype := notification_type
    title := title
    message := message
    data := data
    sender_id := sender_id
    timestamp := ts
    read := false }

/-- `NotificationService.send_notification`. -/
def send_notification (ns : NotificationService) (cs : ConnectionManager)
    (tsStr : String) (ts : Nat) (user_id : Nat)
    (notification_type title message : String) (data : List (String × String))
    (sender_id : Option Nat) (persistent : Bool) : SendResult :=
  let n : Notification :=
    builtNotification tsStr ts user_id notification_type title message data sender_id
  let ns' :=
    if persistent then
      { ns with notifications :=
          (setA ns.notifications user_id
            (capAppend ((getA ns.notifications user_id).getD []) n)) }
    else ns
  { state := ns'
    pushed := if is_user_connected cs user_id then [n] else []
    ret := n.id }

/-- `NotificationService.get_unread_count`. -/
def get_unread_count (ns : NotificationService) (user_id : Nat) : Nat :=
  let user_notifications := (getA ns.notifications user_id).getD []
  let read := (getA ns.read_notifications user_id).getD []
  (user_notifications.filter (fun n => n.id ∉ read)).length

/-- `NotificationService.get_notifications`: the loop
`notification["read"] = notification["id"] in read_notifications` mutates the
stored dicts in place (when the user has an entry, the stored list now holds
the annotated dicts), then the *returned* list is sorted most-recent-first and
truncated.  `sorted(..., reverse=True)` is a stable descending sort, i.e.
`mergeSort` with `b.timestamp ≤ a.timestamp`. -/
def get_notifications (ns : NotificationService) (user_id : Nat) (limit : Nat) :
    NotificationService × List Notification :=
  let read := (getA ns.read_notifications user_id).getD []
  let annotate := fun (n : Notification) => { n with read := decide (n.id ∈ read) }
  match getA ns.notifications user_id with
  | none => (ns, [])
  | some user_notifications =>
    let annotated := user_notifications.map annotate
    ({ ns with notifications := (setA ns.notifications user_id annotated) },
      (annotated.mergeSort (fun a b => decide (b.timestamp ≤ a.timestamp))).take limit)

/-- `NotificationService.mark_as_read`: unconditionally add the
caller-supplied identifier to the user's read set, then push the updated
unread count if the user is connected. -/
def mark_as_read (ns : NotificationService) (cs : ConnectionManager)
    (notification_id : String) (user_id : Nat) : NotificationService × List OutMsg :=
  let rs := (getA ns.read_notifications user_id).getD []
  let ns' := { ns with read_notifications :=
    (setA ns.read_notifications user_id (addToSet rs notification_id)) }
  let cnt := get_unread_count ns' user_id
  (ns', if is_user_connected cs user_id then [OutMsg.unread_count_updated cnt] else [])

/-- `NotificationService.mark_all_as_read`: add every currently stored
identifier for the user to the read set; push count 0 if connected. -/
def mark_all_as_read (ns : NotificationService) (cs : ConnectionManager)
    (user_id : Nat) : NotificationService × List OutMsg :=
  let user_notifications := (getA ns.notifications user_id).getD []
  let rs := (getA ns.read_notifications user_id).getD []
  let ns' := { ns with read_notifications :=
    (setA ns.read_notifications user_id
      (user_notifications.foldl (fun acc n => addToSet acc n.id) rs)) }
  (ns', if is_user_connected cs user_id then [OutMsg.unread_count_updated 0] else [])

/-- Messages `send_pending_notifications` hands to `manager.send_to_user`. -/
inductive PendingMsg where
  | unread_count (count : Nat)
  | recent_notifications (notifications : List Notification)
deriving DecidableEq

/-- `NotificationService.send_pending_notifications`: push the unread count,
then — only when `get_notifications(user_id, limit=10)` is non-empty — push
the recent batch.  `get_notifications` may mutate the store, so the updated
state is returned. -/
def send_pending_notifications (ns : NotificationService) (user_id : Nat) :
    NotificationService × List PendingMsg :=
  let unread := get_unread_count ns user_id
  let p := get_notifications ns user_id 10
  (p.1,
    PendingMsg.unread_count unread ::
      (if p.2 ≠ [] then [PendingMsg.recent_notifications p.2] else []))

/-! ## WebSocket route (`app/routes/websocket.py`) -/

/-- A decoded inbound message.  `Option` fields are `message_data.get(...)`,
with `none` covering both an absent key and a falsy value (the handlers guard
with truthiness checks such as `if channel:`). -/
inductive InMsg where
  | ping (timestamp : Option String)
  | subscribeMsg (channel : Option String)
  | unsubscribeMsg (channel : Option String)
  | mark_notification_read (notification_id : Option String)
  | get_unread_count_msg
  | unknown (tag : String)
deriving DecidableEq

/-- One raw frame received on the socket: parseable JSON, non-parseable text
(`json.JSONDecodeError`), or the remote end closing (`WebSocketDisconnect`). -/
inductive Frame where
  | valid (m : InMsg)
  | malformed
  | closed
deriving DecidableEq

/-- `handle_websocket_message`: dispatch on the `type` tag.  `none` models an
exception escaping the handler (only `subscribe_to_channel` can raise here).
The returned messages are every outbound message the dispatch produced,
whether personal or fanned out to the user. -/
def handle_websocket_message (cs : ConnectionManager) (ns : NotificationService)
    (websocket user_id : Nat) :
    InMsg → Option (ConnectionManager × NotificationService × List OutMsg)
  | InMsg.ping timestamp => some (cs, ns, [OutMsg.pong timestamp])
  | InMsg.subscribeMsg none => some (cs, ns, [])
  | InMsg.subscribeMsg (some channel) =>
    (subscribe_to_channel cs websocket channel).map
      (fun p => (p.1, ns, p.2.toList))
  | InMsg.unsubscribeMsg none => some (cs, ns, [])
  | InMsg.unsubscribeMsg (some channel) =>
    let p := unsubscribe_from_channel cs websocket channel
    some (p.1, ns, p.2.toList)
  | InMsg.mark_notification_read none => some (cs, ns, [])
  | InMsg.mark_notification_read (some notification_id) =>
    let p := mark_as_read ns cs notification_id user_id
    some (cs, p.1, p.2)
  | InMsg.get_unread_count_msg =>
    some (cs, ns, [OutMsg.unread_count (get_unread_count ns user_id)])
  | InMsg.unknown _ => some (cs, ns, [])

/-- The receive loop of `websocket_endpoint` after a connection is active:
frames are handled in order until the list ends, the remote closes, a frame
fails to parse (the `except json.JSONDecodeError` sits *outside* the `while`
loop, so the loop exits), or a handler raises.  Returns the final states, the
outbound messages, and the inbound messages that were actually handled. -/
def session_loop (cs : ConnectionManager) (ns : NotificationService)
    (websocket user_id : Nat) :
    List Frame → ConnectionManager × NotificationService × List OutMsg × List InMsg
  | [] => (cs, ns, [], [])
  | Frame.malformed :: _ => (cs, ns, [], [])
  | Frame.closed :: _ => (cs, ns, [], [])
  | Frame.valid m :: rest =>
    match handle_websocket_message cs ns websocket user_id m with
    | none => (cs, ns, [], [])
    | some (cs', ns', out) =>
      let r := session_loop cs' ns' websocket user_id rest
      (r.1, r.2.1, out ++ r.2.2.1, m :: r.2.2.2)

/-- The post-authentication part of `websocket_endpoint`: run the receive
loop, then — in the `finally` block, on every exit path — call
`manager.disconnect(websocket)`.  The first component is `none` only if that
final `disconnect` itself raises. -/
def websocket_session (cs : ConnectionManager) (ns : NotificationService)
    (websocket user_id : Nat) (frames : List Frame) :
    Option (ConnectionManager × NotificationService) × List OutMsg × List InMsg :=
  let r := session_loop cs ns websocket user_id frames
  ((disconnect r.1 websocket).map (fun c => (c, r.2.1)), r.2.2.1, r.2.2.2)

/-! ## Operation traces

For the invariant claims, runs of the public registry/store operations are
modelled as explicit traces folded over the state. -/

/-- One public `ConnectionManager` operation.  `send_to_user` carries the set
of handles whose transport send fails during the call (each such failure
triggers `disconnect` of that handle, per the source). -/
inductive RegOp where
  | connectOp (websocket user_id : Nat)
  | disconnectOp (websocket : Nat)
  | subscribeOp (websocket : Nat) (channel : String)
  | unsubscribeOp (websocket : Nat) (channel : String)
  | sendToUserOp (user_id : Nat) (failed : List Nat)
deriving DecidableEq

/-- The registry-state effect of one operation (`none` = a raised exception). -/
def regStep (s : ConnectionManager) : RegOp → Option ConnectionManager
  | RegOp.connectOp w u => some (connect s w u)
  | RegOp.disconnectOp w => disconnect s w
  | RegOp.subscribeOp w ch => (subscribe_to_channel s w ch).map (fun p => p.1)
  | RegOp.unsubscribeOp w ch => some (unsubscribe_from_channel s w ch).1
  | RegOp.sendToUserOp u failed => send_to_user s u failed

/-- Run a trace of registry operations from a given state. -/
def runReg (s : ConnectionManager) : List RegOp → Option ConnectionManager
  | [] => some s
  | op :: ops => (regStep s op) >>= (fun s' => runReg s' ops)

/-- Run a trace under the well-formedness side conditions of the amended
invariant claim: every `connect` targets a nonzero user id and uses a handle
that is not currently registered. -/
def runRegWF (s : ConnectionManager) : List RegOp → Option ConnectionManager
  | [] => some s
  | RegOp.connectOp w u :: ops =>
    if u ≠ 0 ∧ getA s.user_sessions w = none then runRegWF (connect s w u) ops
    else none
  | op :: ops => (regStep s op) >>= (fun s' => runRegWF s' ops)

/-- Reference semantics for presence: the `(handle, user)` pairs connected and
not yet disconnected after a trace.  A `send_to_user` failure disconnects the
failing handles of the targeted user. -/
def liveStep (ps : List (Nat × Nat)) : RegOp → List (Nat × Nat)
  | RegOp.connectOp w u => ps ++ [(w, u)]
  | RegOp.disconnectOp w => ps.filter (fun p => p.1 ≠ w)
  | RegOp.subscribeOp _ _ => ps
  | RegOp.unsubscribeOp _ _ => ps
  | RegOp.sendToUserOp u failed => ps.filter (fun p => ¬(p.2 = u ∧ p.1 ∈ failed))

/-- Live `(handle, user)` pairs after a trace, starting from no connections. -/
def livePairs (ops : List RegOp) : List (Nat × Nat) :=
  ops.foldl liveStep []

/-- One public `NotificationService` operation (the store-mutating interface
reachable from application code and from inbound `mark_notification_read` /
`get_unread_count` messages). -/
inductive StoreOp where
  | sendOp (tsStr : String) (ts : Nat) (user_id : Nat)
      (notification_type title message : String) (data : List (String × String))
      (sender_id : Option Nat) (persistent : Bool)
  | markReadOp (notification_id : String) (user_id : Nat)
  | markAllReadOp (user_id : Nat)
  | getNotificationsOp (user_id : Nat) (limit : Nat)
deriving DecidableEq

/-- The store-state effect of one operation (`cs` is the registry consulted
for live pushes; it does not influence the stored data). -/
def storeStep (cs : ConnectionManager) (ns : NotificationService) : StoreOp → NotificationService
  | StoreOp.sendOp tsStr ts u ty ti me d si p => (send_notification ns cs tsStr ts u ty ti me d si p).state
  | StoreOp.markReadOp nid u => (mark_as_read ns cs nid u).1
  | StoreOp.markAllReadOp u => (mark_all_as_read ns cs u).1
  | StoreOp.getNotificationsOp u lim => (get_notifications ns u lim).1

/-- Run a trace of store operations. -/
def runStore (cs : ConnectionManager) (ns : NotificationService) (ops : List StoreOp) :
    NotificationService :=
  ops.foldl (storeStep cs) ns

/-- Identifiers ever appended to `user_id`'s stored sequence by a trace:
exactly the ids generated by its persistent sends to that user. -/
def everStoredIds (ops : List StoreOp) (user_id : Nat) : List String :=
  ops.foldr
    (fun op acc =>
      match op with
      | StoreOp.sendOp tsStr _ u _ _ _ _ _ p =>
        if u = user_id ∧ p = true then notifId tsStr u :: acc else acc
      | _ => acc)
    []

/-- Identifiers supplied to `mark_as_read` for `user_id` by a trace. -/
def markedIds (ops : List StoreOp) (user_id : Nat) : List String :=
  ops.foldr
    (fun op acc =>
      match op with
      | StoreOp.markReadOp nid u => if u = user_id then nid :: acc else acc
      | _ => acc)
    []

/-- Keys of an association list, in order. -/
def keysA {β : Type} (l : List (Nat × β)) : List Nat :=
  l.map (fun p => p.1)

/-! ## Decimal rendering

`f"notif_{...}_{user_id}"` renders `user_id` with `Nat.repr`.  To reason about
identifier collisions, the decimal digit list is characterised by a
structurally recursive specification and a digit-evaluation left inverse. -/

/-- Most-significant-first decimal digit characters of a natural number. -/
def decDigits (n : Nat) : List Char :=
  if h : n < 10 then [Nat.digitChar n]
  else
    have : n / 10 < n := Nat.div_lt_self (by omega) (by omega)
    decDigits (n / 10) ++ [Nat.digitChar (n % 10)]

/-- Numeric value of a decimal digit character. -/
def charVal (c : Char) : Nat :=
  c.toNat - 48

/-- Evaluate a most-significant-first digit string back to a number. -/
def valOfDigits (l : List Char) : Nat :=
  l.foldl (fun acc c => 10 * acc + charVal c) 0

/-! ## Concrete states used for witnesses and counterexamples -/

/-- A sample stored notification. -/
def exampleNotification : Notification :=
  { id := "a", ntype := "info", title := "t", message := "m", data := []
    sender_id := none, timestamp := 3, read := false }

/-- A store holding exactly 100 notifications for user 1. -/
def serviceHundred : NotificationService :=
  { notifications := [(1, List.replicate 100 exampleNotification)]
    read_notifications := [] }

/-- The registry after `connect(initManager, 5, 0)`: handle 5 under user id 0. -/
def managerZero : ConnectionManager :=
  connect initManager 5 0

/-- The registry after handle 7 of user 1 connects. -/
def managerOne : ConnectionManager :=
  connect initManager 7 1

/-- The registry left behind by `connect(5, user 0); disconnect(5)`. -/
def managerLeak : ConnectionManager :=
  { active_connections := [(0, [5])], user_sessions := [], subscriptions := [(0, [])] }

/-- A store where user 1 holds one unread notification `"a"` that the read
set already contains. -/
def serviceReadA : NotificationService :=
  { notifications := [(1, [exampleNotification])]
    read_notifications := [(1, ["a"])] }

/-- The registry after user 1 connects handles 1 and 2 and only handle 1
subscribes to `"shop_42"`. -/
def managerTwoHandles : ConnectionManager :=
  { active_connections := [(1, [1, 2])]
    user_sessions := [(1, 1), (2, 1)]
    subscriptions := [(1, ["shop_42"])] }

/-- Handles the reference semantics considers live for a user. -/
def handlesOf (ps : List (Nat × Nat)) (u : Nat) : List Nat :=
  (ps.filter (fun p => p.2 = u)).map (fun p => p.1)

/-- Simulation invariant tying the registry state to the reference list of
live `(handle, user)` pairs: connection lists are exactly the live handles
per user in order, present entries are non-empty, the reverse map holds
exactly the live pairs, dict keys and handles are duplicate-free, and no
live user id is 0. -/
def RegInv (ps : List (Nat × Nat)) (s : ConnectionManager) : Prop :=
  (keysA s.active_connections).Nodup ∧
  (keysA s.user_sessions).Nodup ∧
  (ps.map (fun p => p.1)).Nodup ∧
  (∀ u, (getA s.active_connections u).getD [] = handlesOf ps u) ∧
  (∀ u l, getA s.active_connections u = some l → l ≠ []) ∧
  (∀ w u, getA s.user_sessions w = some u ↔ (w, u) ∈ ps) ∧
  (∀ p, p ∈ ps → p.2 ≠ 0)

/-! ## Association-list lemmas -/

theorem getA_setA_self {β : Type} (l : List (Nat × β)) (k : Nat) (v : β) :
    getA (setA l k v) k = some v := by
  induction l with
  | nil => simp [setA, getA]
  | cons p rest ih =>
    by_cases h : p.1 = k
    · simp [setA, h, getA]
    · simp [setA, h, getA, ih]

theorem getA_setA_ne {β : Type} (l : List (Nat × β)) (k k' : Nat) (v : β) (h : k' ≠ k) :
    getA (setA l k v) k' = getA l k' := by
  have hk : ¬ k = k' := fun hh => h hh.symm
  induction l with
  | nil => simp [setA, getA, hk]
  | cons p rest ih =>
    by_cases hp : p.1 = k
    · simp [setA, hp, getA, hk]
    · by_cases hp' : p.1 = k'
      · simp [setA, hp, getA, hp', h]
      · simp [setA, hp, getA, hp', ih]

theorem getA_eraseA_ne {β : Type} (l : List (Nat × β)) (k k' : Nat) (h : k' ≠ k) :
    getA (eraseA l k) k' = getA l k' := by
  have hk : ¬ k = k' := fun hh => h hh.symm
  induction l with
  | nil => simp [eraseA, getA]
  | cons p rest ih =>
    by_cases hp : p.1 = k
    · have hp' : ¬ p.1 = k' := by
        rw [hp]
        exact hk
      simp [eraseA, hp, getA, hp', hk]
    · by_cases hp' : p.1 = k'
      · simp [eraseA, hp, getA, hp', h]
      · simp [eraseA, hp, getA, hp', ih]

theorem getA_none_of_not_mem_keysA {β : Type} (l : List (Nat × β)) (k : Nat)
    (h : k ∉ keysA l) : getA l k = none := by
  induction l with
  | nil => simp [getA]
  | cons p rest ih =>
    simp only [keysA, List.map_cons, List.mem_cons] at h
    push_neg at h
    rw [getA]
    have hne : ¬ p.1 = k := fun hh => h.1 hh.symm
    rw [if_neg hne]
    exact ih (by simpa [keysA] using h.2)

theorem getA_eraseA_self {β : Type} (l : List (Nat × β)) (k : Nat)
    (h : (keysA l).Nodup) : getA (eraseA l k) k = none := by
  induction l with
  | nil => simp [eraseA, getA]
  | cons p rest ih =>
    simp only [keysA, List.map_cons, List.nodup_cons] at h
    by_cases hp : p.1 = k
    · rw [eraseA]
      simp only [hp, if_true]
      apply getA_none_of_not_mem_keysA
      rw [← hp]
      simpa [keysA] using h.1
    · rw [eraseA]
      simp only [hp, if_false]
      rw [getA]
      simp only [hp, if_false]
      exact ih (by simpa [keysA] using h.2)

theorem mem_keysA_of_getA_isSome {β : Type} (l : List (Nat × β)) (k : Nat)
    (h : (getA l k).isSome) : k ∈ keysA l := by
  induction l with
  | nil => simp [getA] at h
  | cons p rest ih =>
    rw [getA] at h
    by_cases hp : p.1 = k
    · simp [keysA, hp]
    · simp only [hp, if_false] at h
      have := ih h
      simp only [keysA, List.map_cons, List.mem_cons]
      right
      simpa [keysA] using this

theorem keysA_setA {β : Type} (l : List (Nat × β)) (k : Nat) (v : β) :
    keysA (setA l k v) = if k ∈ keysA l then keysA l else keysA l ++ [k] := by
  induction l with
  | nil => simp [setA, keysA]
  | cons p rest ih =>
    by_cases hp : p.1 = k
    · have hmem : k ∈ keysA (p :: rest) := by
        simp only [keysA, List.map_cons, List.mem_cons]
        exact Or.inl hp.symm
      rw [if_pos hmem]
      simp [setA, hp, keysA]
    · have hne : ¬ k = p.1 := fun hh => hp hh.symm
      simp only [keysA, List.map_cons] at ih ⊢
      simp only [setA, hp, if_false, List.map_cons]
      rw [ih]
      by_cases hk : k ∈ List.map (fun p => p.1) rest
      · simp [hk, hne]
      · simp [hk, hne]

theorem keysA_setA_nodup {β : Type} (l : List (Nat × β)) (k : Nat) (v : β)
    (h : (keysA l).Nodup) : (keysA (setA l k v)).Nodup := by
  rw [keysA_setA]
  by_cases hk : k ∈ keysA l
  · simpa [hk] using h
  · simp only [hk, if_false]
    simpa [List.nodup_append] using ⟨h, hk⟩

theorem keysA_eraseA_sublist {β : Type} (l : List (Nat × β)) (k : Nat) :
    (keysA (eraseA l k)).Sublist (keysA l) := by
  induction l with
  | nil => simp [eraseA, keysA]
  | cons p rest ih =>
    by_cases hp : p.1 = k
    · simp only [eraseA, hp, if_true]
      exact (List.sublist_cons_self _ _)
    · simp only [eraseA, hp, if_false, keysA, List.map_cons]
      exact List.Sublist.cons₂ _ ih

theorem keysA_eraseA_nodup {β : Type} (l : List (Nat × β)) (k : Nat)
    (h : (keysA l).Nodup) : (keysA (eraseA l k)).Nodup :=
  (keysA_eraseA_sublist l k).nodup h

/-! ## Decimal rendering lemmas -/

theorem charVal_digitChar : ∀ d : Nat, d < 10 →
    charVal (Nat.digitChar d) = d ∧ Nat.digitChar d ≠ '_' := by
  decide

theorem toDigitsCore_eq_decDigits :
    ∀ (fuel n : Nat) (ds : List Char), n ≤ fuel →
      Nat.toDigitsCore 10 (fuel + 1) n ds = decDigits n ++ ds := by
  intro fuel
  induction fuel with
  | zero =>
    intro n ds hn
    have hn0 : n = 0 := Nat.le_zero.mp hn
    subst hn0
    rw [Nat.toDigitsCore]
    norm_num
    rw [decDigits]
    norm_num
  | succ fuel ih =>
    intro n ds hn
    rw [Nat.toDigitsCore]
    by_cases h10 : n / 10 = 0
    · have hlt : n < 10 := by omega
      have hmod : n % 10 = n := Nat.mod_eq_of_lt hlt
      simp only [h10, if_true, hmod]
      rw [decDigits]
      simp [hlt]
    · have hge : ¬ n < 10 := by omega
      have hle : n / 10 ≤ fuel := by omega
      simp only [h10, if_false]
      rw [ih (n / 10) (Nat.digitChar (n % 10) :: ds) hle]
      conv_rhs => rw [decDigits]
      simp [hge]

theorem toDigits_eq_decDigits (n : Nat) : Nat.toDigits 10 n = decDigits n := by
  have h := toDigitsCore_eq_decDigits n n [] (Nat.le_refl n)
  simpa [Nat.toDigits] using h

theorem valOfDigits_decDigits (n : Nat) : valOfDigits (decDigits n) = n := by
  induction n using Nat.strong_induction_on with
  | _ n ih =>
    by_cases h : n < 10
    · rw [decDigits]
      simp only [h, dite_true]
      simp [valOfDigits, (charVal_digitChar n h).1]
    · rw [decDigits]
      simp only [h, dite_false]
      rw [valOfDigits, List.foldl_append]
      have hv := ih (n / 10) (Nat.div_lt_self (by omega) (by omega))
      rw [valOfDigits] at hv
      rw [hv]
      simp only [List.foldl_cons, List.foldl_nil,
        charVal_digitChar (n % 10) (Nat.mod_lt _ (by omega)) |>.1]
      omega

theorem underscore_not_mem_decDigits (n : Nat) : '_' ∉ decDigits n := by
  induction n using Nat.strong_induction_on with
  | _ n ih =>
    by_cases h : n < 10
    · rw [decDigits]
      simp only [h, dite_true, List.mem_singleton]
      exact fun hh => (charVal_digitChar n h).2 hh.symm
    · rw [decDigits]
      simp only [h, dite_false, List.mem_append, List.mem_singleton]
      push_neg
      refine ⟨ih (n / 10) (Nat.div_lt_self (by omega) (by omega)), ?_⟩
      exact fun hh => (charVal_digitChar (n % 10) (Nat.mod_lt _ (by omega))).2 hh.symm

theorem repr_data (n : Nat) : (Nat.repr n).data = decDigits n := by
  rw [Nat.repr, toDigits_eq_decDigits]
  rfl

theorem repr_injective_nat {a b : Nat} (h : Nat.repr a = Nat.repr b) : a = b := by
  have hd : decDigits a = decDigits b := by
    rw [← repr_data, ← repr_data, h]
  calc a = valOfDigits (decDigits a) := (valOfDigits_decDigits a).symm
  _ = valOfDigits (decDigits b) := by rw [hd]
  _ = b := valOfDigits_decDigits b

theorem underscore_split {b d : List Char} :
    ∀ {a c : List Char}, '_' ∉ a → '_' ∉ c →
      a ++ '_' :: b = c ++ '_' :: d → a = c ∧ b = d := by
  intro a
  induction a with
  | nil =>
    intro c _ hc h
    cases c with
    | nil => simpa using h
    | cons y c' =>
      simp only [List.nil_append, List.cons_append, List.cons.injEq] at h
      exact absurd (by simp [← h.1]) hc
  | cons x a' ih =>
    intro c ha hc h
    cases c with
    | nil =>
      simp only [List.cons_append, List.nil_append, List.cons.injEq] at h
      exact absurd (by simp [h.1]) ha
    | cons y c' =>
      simp only [List.cons_append, List.cons.injEq] at h
      have ha' : '_' ∉ a' := fun hm => ha (List.mem_cons_of_mem _ hm)
      have hc' : '_' ∉ c' := fun hm => hc (List.mem_cons_of_mem _ hm)
      rcases ih ha' hc' h.2 with ⟨h1, h2⟩
      exact ⟨by rw [h.1, h1], h2⟩

theorem notifId_data (t : String) (u : Nat) :
    (notifId t u).data = 'n' :: 'o' :: 't' :: 'i' :: 'f' :: '_' ::
      (t.data ++ '_' :: (Nat.repr u).data) := by
  show ("notif_" ++ t ++ "_" ++ Nat.repr u).data = _
  simp [String.data_append]

/-! ## Behaviour of `disconnect` -/

theorem disconnect_not_registered (s : ConnectionManager) (w : Nat)
    (h : getA s.user_sessions w = none) : disconnect s w = some s := by
  rw [disconnect]
  simp [h]

theorem disconnect_user_sessions (s s' : ConnectionManager) (w : Nat)
    (hd : disconnect s w = some s') :
    s'.user_sessions =
      (if (getA s.user_sessions w).isSome then eraseA s.user_sessions w
       else s.user_sessions) := by
  rw [disconnect] at hd
  cases hus : getA s.user_sessions w with
  | none =>
    simp only [hus, Option.map_some', Option.isSome_none, Bool.false_eq_true,
      if_false, Option.some.injEq] at hd
    rw [← hd]
    simp [hus]
  | some uid =>
    by_cases h0 : uid = 0
    · subst h0
      simp only [hus, if_true, Option.map_some', Option.some.injEq] at hd
      simp only [hus, Option.isSome_some, if_true] at hd ⊢
      rw [← hd]
    · cases hac : getA s.active_connections uid with
      | none =>
        simp only [hus, h0, if_false, hac, Option.map_some', Option.some.injEq] at hd
        simp only [hus, Option.isSome_some, if_true] at hd ⊢
        rw [← hd]
      | some l =>
        cases hrf : removeFirst l w with
        | none =>
          simp only [hus, h0, if_false, hac, hrf, Option.map_none'] at hd
          exact absurd hd (by simp)
        | some l' =>
          simp only [hus, h0, if_false, hac, hrf, Option.map_some', Option.some.injEq] at hd
          simp only [hus, Option.isSome_some, if_true] at hd ⊢
          rw [← hd]

theorem disconnect_unregisters (s s' : ConnectionManager) (w : Nat)
    (hnd : (keysA s.user_sessions).Nodup)
    (hd : disconnect s w = some s') : getA s'.user_sessions w = none := by
  rw [disconnect_user_sessions s s' w hd]
  cases hus : getA s.user_sessions w with
  | none => simpa using hus
  | some uid =>
    simp only [hus, Option.isSome_some, if_true]
    exact getA_eraseA_self s.user_sessions w hnd

/-! ## Behaviour of the FIFO cap -/

theorem capAppend_length_le (l : List Notification) (n : Notification) :
    (capAppend l n).length ≤ 100 := by
  rw [capAppend]
  by_cases hc : 100 < (l ++ [n]).length
  · simp only [hc, if_true, List.length_drop]
    omega
  · simp only [hc, if_false]
    omega

theorem notifId_inj (ts1 ts2 : String) (u1 u2 : Nat)
    (h1 : '_' ∉ ts1.data) (h2 : '_' ∉ ts2.data) :
    notifId ts1 u1 = notifId ts2 u2 ↔ (ts1 = ts2 ∧ u1 = u2) := by
  constructor
  · intro h
    have hd := congrArg String.data h
    rw [notifId_data, notifId_data] at hd
    simp only [List.cons.injEq, true_and] at hd
    rcases underscore_split h1 h2 hd with ⟨hts, hu⟩
    refine ⟨String.ext hts, ?_⟩
    apply repr_injective_nat
    exact String.ext hu
  · intro h
    rw [h.1, h.2]

theorem storeStep_cap (cs : ConnectionManager) (ns : NotificationService) (op : StoreOp)
    (h : ∀ v, ((getA ns.notifications v).getD []).length ≤ 100) :
    ∀ v, ((getA (storeStep cs ns op).notifications v).getD []).length ≤ 100 := by
  intro v
  cases op with
  | sendOp tsStr ts u ty ti me d si p =>
    rw [storeStep, send_notification]
    cases p with
    | false => exact h v
    | true =>
      simp only [if_true]
      by_cases hv : v = u
      · subst hv
        rw [getA_setA_self]
        simpa using capAppend_length_le _ _
      · rw [getA_setA_ne _ _ _ _ hv]
        exact h v
  | markReadOp nid u =>
    simpa [storeStep, mark_as_read] using h v
  | markAllReadOp u =>
    simpa [storeStep, mark_all_as_read] using h v
  | getNotificationsOp u lim =>
    rw [storeStep, get_notifications]
    cases hget : getA ns.notifications u with
    | none => exact h v
    | some l =>
      simp only
      by_cases hv : v = u
      · subst hv
        rw [getA_setA_self]
        have := h v
        rw [hget] at this
        simpa using this
      · rw [getA_setA_ne _ _ _ _ hv]
        exact h v

theorem runStore_cap (cs : ConnectionManager) (ops : List StoreOp) :
    ∀ ns : NotificationService, (∀ v, ((getA ns.notifications v).getD []).length ≤ 100) →
      ∀ v, ((getA (runStore cs ns ops).notifications v).getD []).length ≤ 100 := by
  induction ops with
  | nil => intro ns h v; exact h v
  | cons op ops ih =>
    intro ns h v
    rw [runStore, List.foldl_cons]
    exact ih (storeStep cs ns op) (storeStep_cap cs ns op h) v

/-! ## Claim theorems -/

/-- C3.  FIFO cap: after every trace of store operations starting from the
empty store, no user's stored sequence exceeds 100 entries; and a persistent
send to a user already holding 100 notifications evicts exactly the oldest
entry, keeping the 100 most recent in insertion order followed by the new
notification. -/
theorem c3_fifo_cap :
    (∀ (cs : ConnectionManager) (ops : List StoreOp) (u : Nat),
      ((getA (runStore cs initService ops).notifications u).getD []).length ≤ 100) ∧
    (∀ (ns : NotificationService) (cs : ConnectionManager) (tsStr : String) (ts u : Nat)
        (ty ti me : String) (d : List (String × String)) (si : Option Nat),
      ((getA ns.notifications u).getD []).length = 100 →
      (getA (send_notification ns cs tsStr ts u ty ti me d si true).state.notifications u).getD []
        = ((getA ns.notifications u).getD []).drop 1 ++
          [builtNotification tsStr ts u ty ti me d si]) := by
  constructor
  · intro cs ops u
    exact runStore_cap cs ops initService (by intro v; simp [initService, getA]) u
  · intro ns cs tsStr ts u ty ti me d si h100
    rw [send_notification]
    simp only [if_true]
    rw [getA_setA_self]
    simp only [Option.getD_some]
    rw [capAppend]
    have hgt : 100 < (((getA ns.notifications u).getD []) ++
        [builtNotification tsStr ts u ty ti me d si]).length := by
      simp [h100]
    rw [if_pos hgt]
    rw [List.drop_append_of_le_length (by simp [h100])]
    simp [h100]

/-- C3 witness: a concrete 100-entry store; the 101st insert drops the head. -/
theorem c3_fifo_cap_witness :
    ((getA serviceHundred.notifications 1).getD []).length = 100 ∧
    (getA (send_notification serviceHundred initManager "9.5" 200 1 "info" "t" "m" [] none
        true).state.notifications 1).getD []
      = ((getA serviceHundred.notifications 1).getD []).drop 1 ++
        [builtNotification "9.5" 200 1 "info" "t" "m" [] none] :=
  ⟨by decide, c3_fifo_cap.2 serviceHundred initManager "9.5" 200 1 "info" "t" "m" [] none
    (by decide)⟩

/-- C6.  `disconnect` is idempotent and total: a second `disconnect` of the
same handle is a no-op (given the well-formedness fact — automatic for Python
dicts — that the reverse map has no duplicate keys), and `disconnect` of a
handle that is not registered in the reverse map succeeds and leaves the
state unchanged. -/
theorem c6_disconnect_idempotent_total :
    (∀ (s s' : ConnectionManager) (w : Nat), (keysA s.user_sessions).Nodup →
      disconnect s w = some s' → disconnect s' w = some s') ∧
    (∀ (s : ConnectionManager) (w : Nat), getA s.user_sessions w = none →
      disconnect s w = some s) := by
  constructor
  · intro s s' w hnd hd
    exact disconnect_not_registered s' w (disconnect_unregisters s s' w hnd hd)
  · exact disconnect_not_registered

/-- C6 witness: disconnecting handle 7 of user 1 twice, and disconnecting a
handle that never connected. -/
theorem c6_witness :
    ((keysA managerOne.user_sessions).Nodup ∧
      disconnect managerOne 7 =
        some { active_connections := [], user_sessions := [], subscriptions := [(1, [])] }) ∧
    disconnect { active_connections := [], user_sessions := [], subscriptions := [(1, [])] } 7 =
      some { active_connections := [], user_sessions := [], subscriptions := [(1, [])] } ∧
    disconnect initManager 99 = some initManager :=
  ⟨⟨by decide, by decide⟩,
    c6_disconnect_idempotent_total.1 managerOne _ 7 (by decide) (by decide),
    c6_disconnect_idempotent_total.2 initManager 99 (by decide)⟩

/-- C9.  For a user with no stored notifications, `send_pending_notifications`
pushes exactly one message, `unread_count` with count 0, and no
`recent_notifications` batch. -/
theorem c9_empty_pending (ns : NotificationService) (u : Nat)
    (h : (getA ns.notifications u).getD [] = []) :
    (send_pending_notifications ns u).2 = [PendingMsg.unread_count 0] := by
  rw [send_pending_notifications]
  cases hg : getA ns.notifications u with
  | none => simp [get_unread_count, get_notifications, hg]
  | some l =>
    have hl : l = [] := by simpa [hg] using h
    subst hl
    simp [get_unread_count, get_notifications, hg]

/-- C9 witness: the empty store and user 3. -/
theorem c9_empty_pending_witness :
    (getA initService.notifications 3).getD [] = [] ∧
    (send_pending_notifications initService 3).2 = [PendingMsg.unread_count 0] :=
  ⟨by decide, c9_empty_pending initService 3 (by decide)⟩

/-- C10.  For a handle registered under user id 0, `disconnect` removes the
handle from the reverse map only (the truthiness guard skips the removal from
`active_connections`), so presence still reports true afterwards; and
`subscribe_to_channel` / `unsubscribe_from_channel` leave the state unchanged
and send no confirmation. -/
theorem c10_user_zero (s : ConnectionManager) (w : Nat) (ch : String)
    (h : getA s.user_sessions w = some 0) :
    disconnect s w = some { s with user_sessions := eraseA s.user_sessions w } ∧
    (w ∈ (getA s.active_connections 0).getD [] →
      is_user_connected { s with user_sessions := eraseA s.user_sessions w } 0 = true) ∧
    subscribe_to_channel s w ch = some (s, none) ∧
    unsubscribe_from_channel s w ch = (s, none) := by
  refine ⟨?_, ?_, ?_, ?_⟩
  · rw [disconnect]
    simp [h]
  · intro hw
    rw [is_user_connected]
    cases hac : getA s.active_connections 0 with
    | none =>
      rw [hac] at hw
      simp at hw
    | some l =>
      rw [hac] at hw
      simp only [Option.getD_some] at hw
      simp only
      exact decide_eq_true (List.length_pos.mpr (List.ne_nil_of_mem hw))
  · rw [subscribe_to_channel]
    simp [h]
  · rw [unsubscribe_from_channel]
    simp [h]

/-- Helper: the receive loop ignores everything after a malformed frame. -/
theorem session_loop_stops_at_malformed (ws uid : Nat) :
    ∀ (pre : List Frame) (cs : ConnectionManager) (ns : NotificationService)
      (rest : List Frame),
      session_loop cs ns ws uid (pre ++ Frame.malformed :: rest) =
        session_loop cs ns ws uid (pre ++ [Frame.malformed]) := by
  intro pre
  induction pre with
  | nil => intro cs ns rest; rfl
  | cons f pre ih =>
    intro cs ns rest
    cases f with
    | malformed => rfl
    | closed => rfl
    | valid m =>
      simp only [List.cons_append, session_loop]
      cases hm : handle_websocket_message cs ns ws uid m with
      | none => rfl
      | some r => simp only [List.append_eq, ih]

/-- C2 (amended).  A malformed inbound payload ends the receive loop: the
session's outcome on `pre ++ malformed :: rest` is identical to its outcome on
`pre ++ [malformed]` (frames after the malformed one are never received), and
no inbound message arriving after a leading malformed frame is ever handled.
The `finally` cleanup (`disconnect`) runs, exactly as `websocket_session`
applies it on every path. -/
theorem c2_malformed_terminates_session :
    (∀ (cs : ConnectionManager) (ns : NotificationService) (ws uid : Nat)
        (pre rest : List Frame),
      websocket_session cs ns ws uid (pre ++ Frame.malformed :: rest) =
        websocket_session cs ns ws uid (pre ++ [Frame.malformed])) ∧
    (∀ (cs : ConnectionManager) (ns : NotificationService) (ws uid : Nat)
        (rest : List Frame),
      (websocket_session cs ns ws uid (Frame.malformed :: rest)).2.2 = []) := by
  constructor
  · intro cs ns ws uid pre rest
    rw [websocket_session, websocket_session, session_loop_stops_at_malformed]
  · intro cs ns ws uid rest
    rfl

/-- C2 counterexample.  The claim says a malformed payload leaves the session
running and later messages still processed: with user 1 connected on handle 7
and frames `[malformed, ping]`, the ping is never handled (the handled-message
list is empty) and the endpoint's cleanup `disconnect` has removed the handle
from the registry — the session terminated. -/
theorem c2_counterexample :
    (websocket_session managerOne initService 7 1
        [Frame.malformed, Frame.valid (InMsg.ping none)]).2.2 = [] ∧
    ((websocket_session managerOne initService 7 1
        [Frame.malformed, Frame.valid (InMsg.ping none)]).1).map
        (fun p => getA p.1.user_sessions 7) = some none := by
  decide

/-- Helper: the FIFO cap keeps the freshly appended notification last. -/
theorem capAppend_getLast (l : List Notification) (n : Notification) :
    (capAppend l n).getLast? = some n := by
  rw [capAppend]
  by_cases hc : 100 < (l ++ [n]).length
  · rw [if_pos hc]
    have hlen : (l ++ [n]).length = l.length + 1 := by simp
    rw [List.drop_append_of_le_length (by omega)]
    exact List.getLast?_concat _
  · rw [if_neg hc]
    exact List.getLast?_concat _

/-- C7 (amended).  Notification identifiers are equal exactly when the clock
string and target user of the generating calls are equal — so two sends in the
same clock reading to the same user collide, refuting global uniqueness — and
every persistent send returns precisely the identifier of the notification it
appended to the store.  (The clock-string hypotheses hold for every value
`datetime.now().timestamp()` can produce: decimal digits and a dot.) -/
theorem c7_identifier_amended :
    (∀ (ts1 ts2 : String) (u1 u2 : Nat), '_' ∉ ts1.data → '_' ∉ ts2.data →
      (notifId ts1 u1 = notifId ts2 u2 ↔ (ts1 = ts2 ∧ u1 = u2))) ∧
    (∀ (ns : NotificationService) (cs : ConnectionManager) (tsStr : String) (ts u : Nat)
        (ty ti me : String) (d : List (String × String)) (si : Option Nat),
      (send_notification ns cs tsStr ts u ty ti me d si true).ret = notifId tsStr u ∧
      (((getA (send_notification ns cs tsStr ts u ty ti me d si
            true).state.notifications u).getD []).map (fun n => n.id)).getLast?
        = some (notifId tsStr u)) := by
  constructor
  · exact notifId_inj
  · intro ns cs tsStr ts u ty ti me d si
    constructor
    · rfl
    · rw [send_notification]
      simp only [if_true]
      rw [getA_setA_self]
      simp only [Option.getD_some, List.getLast?_map]
      rw [capAppend_getLast]
      rfl

/-- C7 witness: distinct clock strings give distinct identifiers, and a
concrete send returns its generated identifier. -/
theorem c7_identifier_amended_witness :
    ('_' ∉ ("1.5" : String).data ∧ '_' ∉ ("2.5" : String).data ∧
      ¬ (notifId "1.5" 1 = notifId "2.5" 1)) ∧
    (send_notification initService initManager "1.5" 3 1 "info" "t" "m" [] none
        true).ret = notifId "1.5" 1 :=
  ⟨⟨by decide, by decide,
    fun h => by
      rcases (c7_identifier_amended.1 "1.5" "2.5" 1 1 (by decide) (by decide)).mp h with ⟨h1, _⟩
      exact absurd (congrArg String.data h1) (by decide)⟩,
    (c7_identifier_amended.2 initService initManager "1.5" 3 1 "info" "t" "m" [] none).1⟩

/-- C7 counterexample.  Two distinct send calls — different titles and
messages, the second invoked on the store produced by the first — generate
the *same* identifier when the wall clock reads the same timestamp string and
the target user coincides: `notif_{timestamp}_{user_id}` has no per-call
component. -/
theorem c7_counterexample :
    (send_notification
        (send_notification initService initManager "1700.5" 3 1 "info" "A" "alpha" [] none
          true).state
        initManager "1700.5" 4 1 "info" "B" "beta" [] none true).ret =
      (send_notification initService initManager "1700.5" 3 1 "info" "A" "alpha" [] none
        true).ret := by
  rfl

/-- C5 (amended).  `get_notifications` returns the user's stored
notifications annotated with current read status, most-recent-first and
truncated to `limit` — the result is the `limit`-prefix of a
descending-sorted permutation of the annotated store, i.e. the `limit` most
recent entries — and leaves the read sets and every other user's stored list
unchanged; but it writes the recomputed read flags back into the user's
*stored* entries (the in-place `notification["read"] = ...` loop), so the
stored state is mutated whenever a flag changes. -/
theorem c5_get_notifications_amended (ns : NotificationService) (u limit : Nat) :
    (get_notifications ns u limit).1.read_notifications = ns.read_notifications ∧
    (∀ v, v ≠ u →
      getA (get_notifications ns u limit).1.notifications v = getA ns.notifications v) ∧
    getA (get_notifications ns u limit).1.notifications u =
      (getA ns.notifications u).map (List.map (fun n =>
        { n with read := decide (n.id ∈ (getA ns.read_notifications u).getD []) })) ∧
    (get_notifications ns u limit).2.Pairwise (fun a b => b.timestamp ≤ a.timestamp) ∧
    (get_notifications ns u limit).2.length ≤ limit ∧
    ∃ full : List Notification,
      full.Perm (((getA ns.notifications u).getD []).map (fun n =>
        { n with read := decide (n.id ∈ (getA ns.read_notifications u).getD []) })) ∧
      full.Pairwise (fun a b => b.timestamp ≤ a.timestamp) ∧
      (get_notifications ns u limit).2 = full.take limit := by
  cases hget : getA ns.notifications u with
  | none =>
    refine ⟨?_, ?_, ?_, ?_, ?_, [], ?_, List.Pairwise.nil, ?_⟩
    · rw [get_notifications]
      simp [hget]
    · intro v hv
      rw [get_notifications]
      simp [hget]
    · rw [get_notifications]
      simp [hget]
    · rw [get_notifications]
      simp [hget]
    · rw [get_notifications]
      simp [hget]
    · simp [hget]
    · rw [get_notifications]
      simp [hget]
  | some l =>
    have hfst : (get_notifications ns u limit).1 =
        { ns with notifications := (setA ns.notifications u (l.map (fun n =>
          { n with read := decide (n.id ∈ (getA ns.read_notifications u).getD []) }))) } := by
      rw [get_notifications]
      simp [hget]
    have hsnd : (get_notifications ns u limit).2 =
        ((l.map (fun n =>
            { n with read := decide (n.id ∈ (getA ns.read_notifications u).getD []) })).mergeSort
          (fun a b => decide (b.timestamp ≤ a.timestamp))).take limit := by
      rw [get_notifications]
      simp [hget]
    have hsorted : ((l.map (fun n =>
        { n with read := decide (n.id ∈ (getA ns.read_notifications u).getD []) })).mergeSort
          (fun a b => decide (b.timestamp ≤ a.timestamp))).Pairwise
        (fun a b => b.timestamp ≤ a.timestamp) := by
      have h := @List.sorted_mergeSort Notification
        (fun a b : Notification => decide (b.timestamp ≤ a.timestamp))
        (by
          intro a b c hab hbc
          simp only [decide_eq_true_eq] at hab hbc ⊢
          exact Nat.le_trans hbc hab)
        (by
          intro a b
          simp only [Bool.or_eq_true, decide_eq_true_eq]
          exact Nat.le_total b.timestamp a.timestamp)
        (l.map (fun n =>
          { n with read := decide (n.id ∈ (getA ns.read_notifications u).getD []) }))
      exact h.imp (fun hab => of_decide_eq_true hab)
    refine ⟨?_, ?_, ?_, ?_, ?_, ?_⟩
    · rw [hfst]
    · intro v hv
      rw [hfst]
      simp only
      exact getA_setA_ne _ _ _ _ hv
    · rw [hfst]
      simp only [hget, Option.map_some']
      exact getA_setA_self _ _ _
    · rw [hsnd]
      exact hsorted.sublist (List.take_sublist _ _)
    · rw [hsnd]
      simp
    · refine ⟨(l.map (fun n =>
        { n with read := decide (n.id ∈ (getA ns.read_notifications u).getD []) })).mergeSort
          (fun a b => decide (b.timestamp ≤ a.timestamp)), ?_, hsorted, hsnd⟩
      simpa using List.mergeSort_perm _ _

/-- C5 counterexample.  The claim says `getNotifications` does not mutate
store state: with notification `"a"` stored unread for user 1 while the read
set already contains `"a"`, the call rewrites the stored read flag in place,
so the resulting store differs from the original. -/
theorem c5_counterexample :
    (get_notifications serviceReadA 1 50).1 ≠ serviceReadA := by
  decide

theorem getA_eq_some_of_mem {β : Type} (l : List (Nat × β)) (k : Nat) (v : β)
    (hnd : (keysA l).Nodup) (hmem : (k, v) ∈ l) : getA l k = some v := by
  induction l with
  | nil => simp at hmem
  | cons p rest ih =>
    simp only [keysA, List.map_cons, List.nodup_cons] at hnd
    rcases List.mem_cons.mp hmem with hh | hh
    · rw [← hh, getA]
      simp
    · have hp : ¬ p.1 = k := by
        intro he
        exact hnd.1 (he ▸ List.mem_map.mpr ⟨(k, v), hh, rfl⟩)
      rw [getA, if_neg hp]
      exact ih (by simpa [keysA] using hnd.2) hh

theorem mem_of_getA_eq_some {β : Type} (l : List (Nat × β)) (k : Nat) (v : β)
    (h : getA l k = some v) : (k, v) ∈ l := by
  induction l with
  | nil => simp [getA] at h
  | cons p rest ih =>
    rw [getA] at h
    by_cases hp : p.1 = k
    · rw [if_pos hp] at h
      have hv : p.2 = v := by simpa using h
      exact List.mem_cons.mpr (Or.inl (by rw [← hp, ← hv]))
    · rw [if_neg hp] at h
      exact List.mem_cons_of_mem _ (ih h)

/-- Helper: membership in the `broadcast_to_channel` delivery fold. -/
theorem mem_broadcast_foldl (s : ConnectionManager) (ch : String) (h : Nat) :
    ∀ (entries : List (Nat × List String)) (acc : List Nat),
      (h ∈ entries.foldl (fun acc p =>
          if ch ∈ p.2 then acc ++ (getA s.active_connections p.1).getD [] else acc) acc ↔
        h ∈ acc ∨ ∃ p, p ∈ entries ∧ ch ∈ p.2 ∧
          h ∈ (getA s.active_connections p.1).getD []) := by
  intro entries
  induction entries with
  | nil => intro acc; simp
  | cons q rest ih =>
    intro acc
    rw [List.foldl_cons]
    by_cases hq : ch ∈ q.2
    · rw [if_pos hq, ih]
      constructor
      · rintro (hacc | ⟨p, hp, hc, hm⟩)
        · rcases List.mem_append.mp hacc with h1 | h2
          · exact Or.inl h1
          · exact Or.inr ⟨q, List.mem_cons_self _ _, hq, h2⟩
        · exact Or.inr ⟨p, List.mem_cons_of_mem _ hp, hc, hm⟩
      · rintro (hacc | ⟨p, hp, hc, hm⟩)
        · exact Or.inl (List.mem_append.mpr (Or.inl hacc))
        · rcases List.mem_cons.mp hp with hh | hh
          · exact Or.inl (List.mem_append.mpr (Or.inr (hh ▸ hm)))
          · exact Or.inr ⟨p, hh, hc, hm⟩
    · rw [if_neg hq, ih]
      constructor
      · rintro (hacc | ⟨p, hp, hc, hm⟩)
        · exact Or.inl hacc
        · exact Or.inr ⟨p, List.mem_cons_of_mem _ hp, hc, hm⟩
      · rintro (hacc | ⟨p, hp, hc, hm⟩)
        · exact Or.inl hacc
        · rcases List.mem_cons.mp hp with hh | hh
          · exact absurd (show ch ∈ q.2 from by rw [hh] at hc; exact hc) hq
          · exact Or.inr ⟨p, hh, hc, hm⟩

/-- C8 (amended).  `broadcast_to_channel` delivers to exactly the handles of
users whose *per-user* subscription set contains the channel: a connection
whose user subscribed receives the broadcast, a connection of an unsubscribed
user does not — but because subscriptions are tracked per user, every other
handle of a subscribed user receives it too, even if that handle never
subscribed.  (The duplicate-free key hypothesis is automatic for Python
dicts.) -/
theorem c8_broadcast_targets_amended (s : ConnectionManager) (ch : String) (h : Nat)
    (hnd : (keysA s.subscriptions).Nodup) :
    h ∈ broadcast_targets s ch ↔
      ∃ u chans, getA s.subscriptions u = some chans ∧ ch ∈ chans ∧
        h ∈ (getA s.active_connections u).getD [] := by
  rw [broadcast_targets, mem_broadcast_foldl]
  simp only [List.not_mem_nil, false_or]
  constructor
  · rintro ⟨p, hp, hc, hm⟩
    exact ⟨p.1, p.2, getA_eq_some_of_mem _ _ _ hnd hp, hc, hm⟩
  · rintro ⟨u, chans, hg, hc, hm⟩
    exact ⟨(u, chans), mem_of_getA_eq_some _ _ _ hg, hc, hm⟩

/-- C8 witness: in the two-handle registry, handle 2 of subscribed user 1 is
a broadcast target for `"shop_42"`. -/
theorem c8_broadcast_targets_amended_witness :
    (keysA managerTwoHandles.subscriptions).Nodup ∧
    2 ∈ broadcast_targets managerTwoHandles "shop_42" :=
  ⟨by decide,
    (c8_broadcast_targets_amended managerTwoHandles "shop_42" 2 (by decide)).mpr
      ⟨1, ["shop_42"], by decide, by decide, by decide⟩⟩

/-- C8 counterexample.  User 1 connects handles 1 and 2; only handle 1
subscribes to `"shop_42"`.  The broadcast nevertheless targets handle 2,
which never subscribed — refuting "a connection that is not subscribed to the
channel does not receive the broadcast". -/
theorem c8_counterexample :
    subscribe_to_channel (connect (connect initManager 1 1) 2 1) 1 "shop_42" =
      some (managerTwoHandles, some (OutMsg.subscription_confirmed "shop_42")) ∧
    2 ∈ broadcast_targets managerTwoHandles "shop_42" := by
  decide

theorem mem_addToSet {α : Type} [DecidableEq α] (s : List α) (x y : α)
    (h : x ∈ addToSet s y) : x ∈ s ∨ x = y := by
  rw [addToSet] at h
  by_cases hy : y ∈ s
  · rw [if_pos hy] at h
    exact Or.inl h
  · rw [if_neg hy] at h
    rcases List.mem_append.mp h with h1 | h2
    · exact Or.inl h1
    · exact Or.inr (by simpa using h2)

theorem mem_foldl_addToSet (l : List Notification) :
    ∀ (acc : List String) (x : String),
      x ∈ l.foldl (fun acc n => addToSet acc n.id) acc →
      x ∈ acc ∨ ∃ n, n ∈ l ∧ x = n.id := by
  induction l with
  | nil => intro acc x h; exact Or.inl h
  | cons n rest ih =>
    intro acc x h
    rw [List.foldl_cons] at h
    rcases ih (addToSet acc n.id) x h with h1 | ⟨m, hm, hx⟩
    · rcases mem_addToSet acc x n.id h1 with h2 | h2
      · exact Or.inl h2
      · exact Or.inr ⟨n, List.mem_cons_self _ _, h2⟩
    · exact Or.inr ⟨m, List.mem_cons_of_mem _ hm, hx⟩

theorem mem_capAppend (l : List Notification) (n m : Notification)
    (h : m ∈ capAppend l n) : m ∈ l ∨ m = n := by
  rw [capAppend] at h
  have hsub : m ∈ l ++ [n] := by
    by_cases hc : 100 < (l ++ [n]).length
    · rw [if_pos hc] at h
      exact List.mem_of_mem_drop h
    · rw [if_neg hc] at h
      exact h
  rcases List.mem_append.mp hsub with h1 | h2
  · exact Or.inl h1
  · exact Or.inr (by simpa using h2)

theorem everStoredIds_cons (op : StoreOp) (ops : List StoreOp) (u : Nat) :
    everStoredIds (op :: ops) u = everStoredIds [op] u ++ everStoredIds ops u := by
  cases op with
  | sendOp tsStr ts u' ty ti me d si p =>
    by_cases hc : u' = u ∧ p = true
    · simp [everStoredIds, hc]
    · simp [everStoredIds, hc]
  | markReadOp nid u' => simp [everStoredIds]
  | markAllReadOp u' => simp [everStoredIds]
  | getNotificationsOp u' lim => simp [everStoredIds]

theorem markedIds_cons (op : StoreOp) (ops : List StoreOp) (u : Nat) :
    markedIds (op :: ops) u = markedIds [op] u ++ markedIds ops u := by
  cases op with
  | sendOp tsStr ts u' ty ti me d si p => simp [markedIds]
  | markReadOp nid u' =>
    by_cases hc : u' = u
    · simp [markedIds, hc]
    · simp [markedIds, hc]
  | markAllReadOp u' => simp [markedIds]
  | getNotificationsOp u' lim => simp [markedIds]

/-- Helper: one store operation only ever adds to a user's read set an
identifier it was passed by `mark_as_read` or one of the user's currently
stored identifiers (`mark_all_as_read`). -/
theorem storeStep_read_track (cs : ConnectionManager) (ns : NotificationService)
    (op : StoreOp) (u : Nat) (nid : String)
    (h : nid ∈ (getA (storeStep cs ns op).read_notifications u).getD []) :
    nid ∈ (getA ns.read_notifications u).getD [] ∨
    nid ∈ ((getA ns.notifications u).getD []).map (fun n => n.id) ∨
    nid ∈ markedIds [op] u := by
  cases op with
  | sendOp tsStr ts u' ty ti me d si p =>
    rw [storeStep, send_notification] at h
    cases p with
    | false => exact Or.inl h
    | true => exact Or.inl h
  | markReadOp nid' u' =>
    rw [storeStep, mark_as_read] at h
    simp only at h
    by_cases hu : u' = u
    · subst hu
      rw [getA_setA_self] at h
      simp only [Option.getD_some] at h
      rcases mem_addToSet _ _ _ h with h1 | h1
      · exact Or.inl h1
      · refine Or.inr (Or.inr ?_)
        simp [markedIds, h1]
    · rw [getA_setA_ne _ _ _ _ (fun hh => hu hh.symm)] at h
      exact Or.inl h
  | markAllReadOp u' =>
    rw [storeStep, mark_all_as_read] at h
    simp only at h
    by_cases hu : u' = u
    · subst hu
      rw [getA_setA_self] at h
      simp only [Option.getD_some] at h
      rcases mem_foldl_addToSet _ _ _ h with h1 | ⟨m, hm, hx⟩
      · exact Or.inl h1
      · exact Or.inr (Or.inl (List.mem_map.mpr ⟨m, hm, hx.symm⟩))
    · rw [getA_setA_ne _ _ _ _ (fun hh => hu hh.symm)] at h
      exact Or.inl h
  | getNotificationsOp u' lim =>
    rw [storeStep, get_notifications] at h
    cases hget : getA ns.notifications u' with
    | none =>
      rw [hget] at h
      exact Or.inl h
    | some l =>
      rw [hget] at h
      exact Or.inl h

/-- Helper: one store operation only ever adds to a user's stored sequence
the identifier of the notification a persistent send to that user builds. -/
theorem storeStep_stored_track (cs : ConnectionManager) (ns : NotificationService)
    (op : StoreOp) (u : Nat) (nid : String)
    (h : nid ∈ ((getA (storeStep cs ns op).notifications u).getD []).map (fun n => n.id)) :
    nid ∈ ((getA ns.notifications u).getD []).map (fun n => n.id) ∨
    nid ∈ everStoredIds [op] u := by
  cases op with
  | sendOp tsStr ts u' ty ti me d si p =>
    rw [storeStep, send_notification] at h
    cases p with
    | false => exact Or.inl h
    | true =>
      simp only [if_true] at h
      by_cases hu : u' = u
      · subst hu
        rw [getA_setA_self] at h
        simp only [Option.getD_some] at h
        rcases List.mem_map.mp h with ⟨m, hm, hx⟩
        rcases mem_capAppend _ _ _ hm with h1 | h1
        · exact Or.inl (List.mem_map.mpr ⟨m, h1, hx⟩)
        · refine Or.inr ?_
          rw [← hx, h1]
          simp [everStoredIds, builtNotification]
      · rw [getA_setA_ne _ _ _ _ (fun hh => hu hh.symm)] at h
        exact Or.inl h
  | markReadOp nid' u' =>
    rw [storeStep, mark_as_read] at h
    exact Or.inl h
  | markAllReadOp u' =>
    rw [storeStep, mark_all_as_read] at h
    exact Or.inl h
  | getNotificationsOp u' lim =>
    rw [storeStep, get_notifications] at h
    cases hget : getA ns.notifications u' with
    | none =>
      rw [hget] at h
      exact Or.inl h
    | some l =>
      rw [hget] at h
      simp only at h
      by_cases hu : u' = u
      · subst hu
        rw [getA_setA_self] at h
        simp only [Option.getD_some, List.map_map] at h
        rw [hget]
        exact Or.inl (by simpa using h)
      · rw [getA_setA_ne _ _ _ _ (fun hh => hu hh.symm)] at h
        exact Or.inl h

/-- Helper: over a whole trace, a user's read set only holds identifiers
that were already readable/stored initially, were generated by a persistent
send of the trace, or were passed to `mark_as_read` by the trace. -/
theorem runStore_tracking (cs : ConnectionManager) :
    ∀ (ops : List StoreOp) (ns : NotificationService) (u : Nat),
      (∀ nid, nid ∈ (getA (runStore cs ns ops).read_notifications u).getD [] →
        nid ∈ (getA ns.read_notifications u).getD [] ∨
        nid ∈ ((getA ns.notifications u).getD []).map (fun n => n.id) ∨
        nid ∈ everStoredIds ops u ∨ nid ∈ markedIds ops u) ∧
      (∀ nid, nid ∈ ((getA (runStore cs ns ops).notifications u).getD []).map (fun n => n.id) →
        nid ∈ ((getA ns.notifications u).getD []).map (fun n => n.id) ∨
        nid ∈ everStoredIds ops u) := by
  intro ops
  induction ops with
  | nil =>
    intro ns u
    exact ⟨fun nid h => Or.inl h, fun nid h => Or.inl h⟩
  | cons op ops ih =>
    intro ns u
    have hrun : runStore cs ns (op :: ops) = runStore cs (storeStep cs ns op) ops := by
      rw [runStore, runStore, List.foldl_cons]
    rcases ih (storeStep cs ns op) u with ⟨ihR, ihS⟩
    constructor
    · intro nid h
      rw [hrun] at h
      rcases ihR nid h with h1 | h1 | h1 | h1
      · rcases storeStep_read_track cs ns op u nid h1 with h2 | h2 | h2
        · exact Or.inl h2
        · exact Or.inr (Or.inl h2)
        · refine Or.inr (Or.inr (Or.inr ?_))
          rw [markedIds_cons]
          exact List.mem_append.mpr (Or.inl h2)
      · rcases storeStep_stored_track cs ns op u nid h1 with h2 | h2
        · exact Or.inr (Or.inl h2)
        · refine Or.inr (Or.inr (Or.inl ?_))
          rw [everStoredIds_cons]
          exact List.mem_append.mpr (Or.inl h2)
      · refine Or.inr (Or.inr (Or.inl ?_))
        rw [everStoredIds_cons]
        exact List.mem_append.mpr (Or.inr h1)
      · refine Or.inr (Or.inr (Or.inr ?_))
        rw [markedIds_cons]
        exact List.mem_append.mpr (Or.inr h1)
    · intro nid h
      rw [hrun] at h
      rcases ihS nid h with h1 | h1
      · rcases storeStep_stored_track cs ns op u nid h1 with h2 | h2
        · exact Or.inl h2
        · refine Or.inr ?_
          rw [everStoredIds_cons]
          exact List.mem_append.mpr (Or.inl h2)
      · refine Or.inr ?_
        rw [everStoredIds_cons]
        exact List.mem_append.mpr (Or.inr h1)

/-- C4 (amended).  After any trace of store operations from the empty store,
every identifier in a user's read set either is the identifier of a
notification that was at some point present in that user's stored sequence
(a persistent send of the trace) or was supplied verbatim by a
`mark_as_read` call — which accepts arbitrary caller-chosen identifiers with
no existence check, so the original invariant does not hold. -/
theorem c4_read_set_amended (cs : ConnectionManager) (ops : List StoreOp) (u : Nat)
    (nid : String)
    (h : nid ∈ (getA (runStore cs initService ops).read_notifications u).getD []) :
    nid ∈ everStoredIds ops u ∨ nid ∈ markedIds ops u := by
  rcases (runStore_tracking cs ops initService u).1 nid h with h1 | h1 | h1 | h1
  · simp [initService, getA] at h1
  · simp [initService, getA] at h1
  · exact Or.inl h1
  · exact Or.inr h1

/-- C4 witness: the trace that only marks `"x"` read for user 1. -/
theorem c4_read_set_amended_witness :
    "x" ∈ (getA (runStore initManager initService
        [StoreOp.markReadOp "x" 1]).read_notifications 1).getD [] ∧
    ("x" ∈ everStoredIds [StoreOp.markReadOp "x" 1] 1 ∨
      "x" ∈ markedIds [StoreOp.markReadOp "x" 1] 1) :=
  ⟨by decide, c4_read_set_amended initManager [StoreOp.markReadOp "x" 1] 1 "x" (by decide)⟩

/-- C4 counterexample.  A `mark_notification_read` message carrying the
identifier `"bogus"` — never stored for anyone — puts `"bogus"` into user 1's
read set (shown both via the raw trace and via the inbound-message handler),
while the trace never stored any notification: the claimed invariant fails. -/
theorem c4_counterexample :
    "bogus" ∈ (getA (runStore initManager initService
        [StoreOp.markReadOp "bogus" 1]).read_notifications 1).getD [] ∧
    everStoredIds [StoreOp.markReadOp "bogus" 1] 1 = [] ∧
    (handle_websocket_message initManager initService 7 1
        (InMsg.mark_notification_read (some "bogus"))).map
      (fun r => (getA r.2.1.read_notifications 1).getD []) = some ["bogus"] := by
  decide

/-- C10 witness: handle 5 connected under user id 0. -/
theorem c10_user_zero_witness :
    getA managerZero.user_sessions 5 = some 0 ∧
    (disconnect managerZero 5 =
        some { managerZero with user_sessions := eraseA managerZero.user_sessions 5 } ∧
      (5 ∈ (getA managerZero.active_connections 0).getD [] →
        is_user_connected
          { managerZero with user_sessions := eraseA managerZero.user_sessions 5 } 0 = true) ∧
      subscribe_to_channel managerZero 5 "shop_42" = some (managerZero, none) ∧
      unsubscribe_from_channel managerZero 5 "shop_42" = (managerZero, none)) :=
  ⟨by decide, c10_user_zero managerZero 5 "shop_42" (by decide)⟩

/-! ## Registry simulation lemmas (for the connect/disconnect invariant) -/

theorem mem_handlesOf (ps : List (Nat × Nat)) (u w : Nat) :
    w ∈ handlesOf ps u ↔ ∃ p, p ∈ ps ∧ p.2 = u ∧ p.1 = w := by
  simp only [handlesOf, List.mem_map, List.mem_filter, decide_eq_true_eq]
  constructor
  · rintro ⟨p, ⟨hp, h2⟩, h1⟩
    exact ⟨p, hp, h2, h1⟩
  · rintro ⟨p, hp, h2, h1⟩
    exact ⟨p, ⟨hp, h2⟩, h1⟩

theorem handlesOf_append_pair (ps : List (Nat × Nat)) (w u v : Nat) :
    handlesOf (ps ++ [(w, u)]) v =
      handlesOf ps v ++ (if v = u then [w] else []) := by
  by_cases hv : v = u
  · subst hv
    simp [handlesOf, List.filter_append]
  · have hvu : ¬ u = v := fun h => hv h.symm
    simp [handlesOf, List.filter_append, hv, hvu]

theorem eq_of_fst_eq_of_nodup (ps : List (Nat × Nat))
    (hnd : (ps.map (fun p => p.1)).Nodup) :
    ∀ p q, p ∈ ps → q ∈ ps → p.1 = q.1 → p = q := by
  induction ps with
  | nil => intro p q hp; simp at hp
  | cons r rest ih =>
    simp only [List.map_cons, List.nodup_cons] at hnd
    intro p q hp hq h1
    rcases List.mem_cons.mp hp with hp | hp <;> rcases List.mem_cons.mp hq with hq | hq
    · rw [hp, hq]
    · exact absurd (List.mem_map.mpr ⟨q, hq, by rw [← h1, hp]⟩) hnd.1
    · exact absurd (List.mem_map.mpr ⟨p, hp, by rw [h1, hq]⟩) hnd.1
    · exact ih hnd.2 p q hp hq h1

theorem RegInv_init : RegInv [] initManager := by
  refine ⟨?_, ?_, ?_, ?_, ?_, ?_, ?_⟩
  · simp [initManager, keysA]
  · simp [initManager, keysA]
  · simp
  · intro u
    simp [initManager, getA, handlesOf]
  · intro u l h
    simp [initManager, getA] at h
  · intro w u
    simp [initManager, getA]
  · intro p hp
    simp at hp

theorem RegInv_connect (ps : List (Nat × Nat)) (s : ConnectionManager) (w u : Nat)
    (inv : RegInv ps s) (hu : u ≠ 0) (hw : getA s.user_sessions w = none) :
    RegInv (ps ++ [(w, u)]) (connect s w u) := by
  obtain ⟨hACnd, hUSnd, hPnd, hAC, hNE, hUS, hNZ⟩ := inv
  have hwps : ∀ u', (w, u') ∉ ps := by
    intro u' hmem
    rw [← hUS] at hmem
    rw [hw] at hmem
    exact Option.noConfusion hmem
  have hACfield : (connect s w u).active_connections =
      (match getA s.active_connections u with
        | none => setA s.active_connections u [w]
        | some l => setA s.active_connections u (l ++ [w])) := rfl
  have hUSfield : (connect s w u).user_sessions = setA s.user_sessions w u := rfl
  have hACnew : ∀ v, getA (connect s w u).active_connections v =
      (if v = u then
        some ((getA s.active_connections u).getD [] ++ [w])
      else getA s.active_connections v) := by
    intro v
    rw [hACfield]
    cases hac : getA s.active_connections u with
    | none =>
      by_cases hv : v = u
      · subst hv
        rw [if_pos rfl, getA_setA_self]
        rfl
      · rw [if_neg hv, getA_setA_ne _ _ _ _ hv]
    | some l =>
      by_cases hv : v = u
      · subst hv
        rw [if_pos rfl, getA_setA_self]
        rfl
      · rw [if_neg hv, getA_setA_ne _ _ _ _ hv]
  refine ⟨?_, ?_, ?_, ?_, ?_, ?_, ?_⟩
  · rw [hACfield]
    cases getA s.active_connections u
    · exact keysA_setA_nodup _ _ _ hACnd
    · exact keysA_setA_nodup _ _ _ hACnd
  · rw [hUSfield]
    exact keysA_setA_nodup _ _ _ hUSnd
  · simp only [List.map_append, List.map_cons, List.map_nil]
    rw [List.nodup_append]
    refine ⟨hPnd, List.nodup_singleton _, ?_⟩
    intro x hx
    simp only [List.mem_singleton]
    intro hxw
    subst hxw
    rcases List.mem_map.mp hx with ⟨p, hp, hpw⟩
    apply hwps p.2
    rw [← hpw]
    exact hp
  · intro v
    rw [hACnew v, handlesOf_append_pair]
    by_cases hv : v = u
    · subst hv
      rw [if_pos rfl, if_pos rfl]
      simp [hAC v]
    · rw [if_neg hv, if_neg hv]
      simp [hAC v]
  · intro v l hl
    rw [hACnew v] at hl
    by_cases hv : v = u
    · rw [if_pos hv] at hl
      have := Option.some.inj hl
      simp [← this]
    · rw [if_neg hv] at hl
      exact hNE v l hl
  · intro w' u'
    rw [hUSfield]
    by_cases hw' : w' = w
    · subst hw'
      rw [getA_setA_self]
      simp only [List.mem_append, List.mem_singleton, Option.some.injEq]
      constructor
      · intro he
        exact Or.inr (by rw [he])
      · rintro (hmem | he)
        · exact absurd hmem (hwps u')
        · exact (Prod.mk.injEq _ _ _ _ ▸ he).2.symm ▸ rfl
    · rw [getA_setA_ne _ _ _ _ hw']
      rw [hUS w' u']
      simp only [List.mem_append, List.mem_singleton]
      constructor
      · exact Or.inl
      · rintro (hmem | he)
        · exact hmem
        · exact absurd (congrArg Prod.fst he) hw'
  · intro p hp
    rcases List.mem_append.mp hp with hmem | hmem
    · exact hNZ p hmem
    · have : p = (w, u) := by simpa using hmem
      rw [this]
      exact hu

theorem removeFirst_of_mem (l : List Nat) (w : Nat) (hnd : l.Nodup) (hw : w ∈ l) :
    removeFirst l w = some (l.filter (fun x => x ≠ w)) := by
  induction l with
  | nil => simp at hw
  | cons x rest ih =>
    simp only [List.nodup_cons] at hnd
    rw [removeFirst]
    by_cases hx : x = w
    · rw [if_pos hx]
      subst hx
      have hfix : List.filter (fun y => !decide (y = x)) rest = rest := by
        apply List.filter_eq_self.mpr
        intro y hy
        simp only [Bool.not_eq_true', decide_eq_false_iff_not]
        intro he
        exact hnd.1 (he ▸ hy)
      simp [List.filter_cons, hfix]
    · rw [if_neg hx]
      have hwrest : w ∈ rest := by
        rcases List.mem_cons.mp hw with h | h
        · exact absurd h.symm hx
        · exact h
      rw [ih hnd.2 hwrest]
      simp [List.filter_cons, hx]

theorem handlesOf_nodup (ps : List (Nat × Nat))
    (hnd : (ps.map (fun p => p.1)).Nodup) (u : Nat) : (handlesOf ps u).Nodup := by
  rw [handlesOf]
  exact ((List.filter_sublist ps).map (fun p => p.1)).nodup hnd

theorem filter_filter_imp (ps : List (Nat × Nat)) (f g : Nat × Nat → Bool)
    (h : ∀ p ∈ ps, g p = true → f p = true) :
    (ps.filter f).filter g = ps.filter g := by
  rw [List.filter_filter]
  apply List.filter_congr
  intro p hp
  cases hg : g p with
  | false => simp
  | true => simp [h p hp hg]

/-- Removing the pairs of a handle registered to user `u` leaves the handle
lists of every other user unchanged. -/
theorem handlesOf_remove_ne (ps : List (Nat × Nat)) (w u : Nat)
    (hnd : (ps.map (fun p => p.1)).Nodup) (hmem : (w, u) ∈ ps) :
    ∀ v, v ≠ u → handlesOf (ps.filter (fun p => p.1 ≠ w)) v = handlesOf ps v := by
  intro v hv
  rw [handlesOf, handlesOf]
  rw [filter_filter_imp]
  intro p hp hg
  simp only [decide_eq_true_eq] at hg ⊢
  intro he
  have hpe : p = (w, u) :=
    eq_of_fst_eq_of_nodup ps hnd p (w, u) hp hmem (by rw [he])
  rw [hpe] at hg
  exact hv hg.symm

/-- Removing a handle's pairs filters that handle out of its user's list. -/
theorem handlesOf_remove_self (ps : List (Nat × Nat)) (w u : Nat) :
    handlesOf (ps.filter (fun p => p.1 ≠ w)) u =
      (handlesOf ps u).filter (fun x => x ≠ w) := by
  rw [handlesOf, handlesOf]
  rw [List.filter_map]
  rw [List.filter_filter, List.filter_filter]
  congr 1
  apply List.filter_congr
  intro p _
  simp only [Function.comp]
  rw [Bool.and_comm]

theorem RegInv_disconnect (ps : List (Nat × Nat)) (s : ConnectionManager) (w : Nat)
    (inv : RegInv ps s) :
    ∃ s', disconnect s w = some s' ∧
      RegInv (ps.filter (fun p => p.1 ≠ w)) s' := by
  obtain ⟨hACnd, hUSnd, hPnd, hAC, hNE, hUS, hNZ⟩ := inv
  have hPnd' : ((ps.filter (fun p => p.1 ≠ w)).map (fun p => p.1)).Nodup :=
    ((List.filter_sublist ps).map (fun p => p.1)).nodup hPnd
  have hNZ' : ∀ p, p ∈ ps.filter (fun p => p.1 ≠ w) → p.2 ≠ 0 := by
    intro p hp
    exact hNZ p (List.mem_of_mem_filter hp)
  cases hus : getA s.user_sessions w with
  | none =>
    refine ⟨s, disconnect_not_registered s w hus, ?_⟩
    have hfix : ps.filter (fun p => p.1 ≠ w) = ps := by
      apply List.filter_eq_self.mpr
      intro p hp
      simp only [decide_eq_true_eq]
      intro he
      have hmem : (w, p.2) ∈ ps := by
        rw [← he]
        exact hp
      rw [← hUS] at hmem
      rw [hus] at hmem
      exact Option.noConfusion hmem
    rw [hfix]
    exact ⟨hACnd, hUSnd, hPnd, hAC, hNE, hUS, hNZ⟩
  | some u =>
    have hwu : (w, u) ∈ ps := (hUS w u).mp hus
    have hu0 : u ≠ 0 := hNZ _ hwu
    have hwh : w ∈ handlesOf ps u := (mem_handlesOf ps u w).mpr ⟨(w, u), hwu, rfl, rfl⟩
    cases hac : getA s.active_connections u with
    | none =>
      exfalso
      have hh := hAC u
      rw [hac] at hh
      rw [← hh] at hwh
      simp at hwh
    | some l =>
      have hl : l = handlesOf ps u := by
        have hh := hAC u
        rw [hac] at hh
        simpa using hh
      have hlnd : l.Nodup := by
        rw [hl]
        exact handlesOf_nodup ps hPnd u
      have hwl : w ∈ l := by
        rw [hl]
        exact hwh
      have hrf : removeFirst l w = some (l.filter (fun x => x ≠ w)) :=
        removeFirst_of_mem l w hlnd hwl
      have hl' : l.filter (fun x => x ≠ w) = handlesOf (ps.filter (fun p => p.1 ≠ w)) u := by
        rw [handlesOf_remove_self, hl]
      refine ⟨{ s with
          active_connections :=
            (if l.filter (fun x => x ≠ w) = [] then eraseA s.active_connections u
             else setA s.active_connections u (l.filter (fun x => x ≠ w)))
          user_sessions := eraseA s.user_sessions w }, ?_, ?_⟩
      · rw [disconnect]
        simp only [hus, hu0, if_false, hac, hrf]
        simp [hus]
      · refine ⟨?_, ?_, hPnd', ?_, ?_, ?_, hNZ'⟩
        · by_cases hnil : l.filter (fun x => x ≠ w) = []
          · simp only [hnil, if_true]
            exact keysA_eraseA_nodup _ _ hACnd
          · simp only [hnil, if_false]
            exact keysA_setA_nodup _ _ _ hACnd
        · exact keysA_eraseA_nodup _ _ hUSnd
        · intro v
          by_cases hv : v = u
          · subst hv
            rw [← hl']
            by_cases hnil : l.filter (fun x => x ≠ w) = []
            · simp only [hnil, if_true]
              rw [getA_eraseA_self _ _ hACnd]
              simp [hnil]
            · simp only [hnil, if_false]
              rw [getA_setA_self]
              rfl
          · have hside : getA
                (if l.filter (fun x => x ≠ w) = [] then eraseA s.active_connections u
                 else setA s.active_connections u (l.filter (fun x => x ≠ w))) v =
                getA s.active_connections v := by
              by_cases hnil : l.filter (fun x => x ≠ w) = []
              · simp only [hnil, if_true]
                exact getA_eraseA_ne _ _ _ hv
              · simp only [hnil, if_false]
                exact getA_setA_ne _ _ _ _ hv
            simp only
            rw [hside, hAC v, handlesOf_remove_ne ps w u hPnd hwu v hv]
        · intro v l₀ hl₀
          by_cases hv : v = u
          · subst hv
            by_cases hnil : l.filter (fun x => x ≠ w) = []
            · simp only [hnil, if_true] at hl₀
              rw [getA_eraseA_self _ _ hACnd] at hl₀
              exact Option.noConfusion hl₀
            · simp only [hnil, if_false] at hl₀
              rw [getA_setA_self] at hl₀
              rw [← Option.some.inj hl₀]
              exact hnil
          · by_cases hnil : l.filter (fun x => x ≠ w) = []
            · simp only [hnil, if_true] at hl₀
              rw [getA_eraseA_ne _ _ _ hv] at hl₀
              exact hNE v l₀ hl₀
            · simp only [hnil, if_false] at hl₀
              rw [getA_setA_ne _ _ _ _ hv] at hl₀
              exact hNE v l₀ hl₀
        · intro w' u'
          by_cases hw' : w' = w
          · subst hw'
            simp only
            rw [getA_eraseA_self _ _ hUSnd]
            constructor
            · intro hh
              exact Option.noConfusion hh
            · intro hmem
              have := List.of_mem_filter hmem
              simp at this
          · simp only
            rw [getA_eraseA_ne _ _ _ hw']
            rw [hUS w' u']
            constructor
            · intro hmem
              apply List.mem_filter.mpr
              exact ⟨hmem, by simpa using hw'⟩
            · intro hmem
              exact List.mem_of_mem_filter hmem

theorem RegInv_of_fields (ps : List (Nat × Nat)) (s s' : ConnectionManager)
    (inv : RegInv ps s)
    (hac : s'.active_connections = s.active_connections)
    (hus : s'.user_sessions = s.user_sessions) : RegInv ps s' := by
  obtain ⟨h1, h2, h3, h4, h5, h6, h7⟩ := inv
  refine ⟨?_, ?_, h3, ?_, ?_, ?_, h7⟩
  · rw [hac]
    exact h1
  · rw [hus]
    exact h2
  · intro u
    rw [hac]
    exact h4 u
  · intro u l
    rw [hac]
    exact h5 u l
  · intro w u
    rw [hus]
    exact h6 w u

theorem subscribe_preserves (s : ConnectionManager) (w : Nat) (ch : String)
    (s1 : ConnectionManager) (m : Option OutMsg)
    (h : subscribe_to_channel s w ch = some (s1, m)) :
    s1.active_connections = s.active_connections ∧
    s1.user_sessions = s.user_sessions := by
  rw [subscribe_to_channel] at h
  cases hus : getA s.user_sessions w with
  | none =>
    rw [hus] at h
    simp only [Option.some.injEq, Prod.mk.injEq] at h
    rw [← h.1]
    exact ⟨rfl, rfl⟩
  | some u =>
    rw [hus] at h
    dsimp only at h
    by_cases h0 : u = 0
    · rw [if_pos h0] at h
      simp only [Option.some.injEq, Prod.mk.injEq] at h
      rw [← h.1]
      exact ⟨rfl, rfl⟩
    · rw [if_neg h0] at h
      cases hsub : getA s.subscriptions u with
      | none =>
        rw [hsub] at h
        exact Option.noConfusion h
      | some chans =>
        rw [hsub] at h
        simp only [Option.some.injEq, Prod.mk.injEq] at h
        rw [← h.1]
        exact ⟨rfl, rfl⟩

theorem unsubscribe_preserves (s : ConnectionManager) (w : Nat) (ch : String) :
    (unsubscribe_from_channel s w ch).1.active_connections = s.active_connections ∧
    (unsubscribe_from_channel s w ch).1.user_sessions = s.user_sessions := by
  rw [unsubscribe_from_channel]
  cases getA s.user_sessions w with
  | none => exact ⟨rfl, rfl⟩
  | some u =>
    dsimp only
    by_cases h0 : u = 0
    · rw [if_pos h0]
      exact ⟨rfl, rfl⟩
    · rw [if_neg h0]
      by_cases hch : ch ∈ (getA s.subscriptions u).getD []
      · rw [if_pos hch]
        exact ⟨rfl, rfl⟩
      · rw [if_neg hch]
        exact ⟨rfl, rfl⟩

theorem RegInv_foldlM_disconnect :
    ∀ (hs : List Nat) (ps : List (Nat × Nat)) (s : ConnectionManager),
      RegInv ps s →
      ∃ s', hs.foldlM disconnect s = some s' ∧
        RegInv (ps.filter (fun p => p.1 ∉ hs)) s' := by
  intro hs
  induction hs with
  | nil =>
    intro ps s inv
    refine ⟨s, rfl, ?_⟩
    have hfix : ps.filter (fun p => p.1 ∉ ([] : List Nat)) = ps := by
      apply List.filter_eq_self.mpr
      intro p hp
      simp
    rw [hfix]
    exact inv
  | cons w hs ih =>
    intro ps s inv
    rcases RegInv_disconnect ps s w inv with ⟨s1, hd, inv1⟩
    rcases ih _ s1 inv1 with ⟨s', hfold, inv'⟩
    refine ⟨s', ?_, ?_⟩
    · rw [List.foldlM_cons, hd]
      simpa using hfold
    · have hfix : (ps.filter (fun p => p.1 ≠ w)).filter (fun p => p.1 ∉ hs) =
          ps.filter (fun p => p.1 ∉ (w :: hs)) := by
        rw [List.filter_filter]
        apply List.filter_congr
        intro p hp
        by_cases h1 : p.1 = w
        · simp [h1]
        · by_cases h2 : p.1 ∈ hs
          · simp [h1, h2]
          · simp [h1, h2]
      rw [hfix] at inv'
      exact inv'

theorem RegInv_send_to_user (ps : List (Nat × Nat)) (s : ConnectionManager)
    (u : Nat) (failed : List Nat) (inv : RegInv ps s) :
    ∃ s', send_to_user s u failed = some s' ∧
      RegInv (ps.filter (fun p => ¬(p.2 = u ∧ p.1 ∈ failed))) s' := by
  have hPnd := inv.2.2.1
  have hAC := inv.2.2.2.1
  rw [send_to_user]
  cases hac : getA s.active_connections u with
  | none =>
    refine ⟨s, rfl, ?_⟩
    have hemp : handlesOf ps u = [] := by
      have hh := hAC u
      rw [hac] at hh
      simpa using hh
    have hfix : ps.filter (fun p => ¬(p.2 = u ∧ p.1 ∈ failed)) = ps := by
      apply List.filter_eq_self.mpr
      intro p hp
      simp only [decide_eq_true_eq]
      rintro ⟨h2, _⟩
      have hmem : p.1 ∈ handlesOf ps u := (mem_handlesOf _ _ _).mpr ⟨p, hp, h2, rfl⟩
      rw [hemp] at hmem
      simp at hmem
    rw [hfix]
    exact inv
  | some l =>
    have hl : l = handlesOf ps u := by
      have hh := hAC u
      rw [hac] at hh
      simpa using hh
    rcases RegInv_foldlM_disconnect (l.filter (fun h => h ∈ failed)) ps s inv with
      ⟨s', hfold, inv'⟩
    refine ⟨s', hfold, ?_⟩
    have hfix : ps.filter (fun p => p.1 ∉ l.filter (fun h => h ∈ failed)) =
        ps.filter (fun p => ¬(p.2 = u ∧ p.1 ∈ failed)) := by
      apply List.filter_congr
      intro p hp
      apply decide_eq_decide.mpr
      rw [List.mem_filter]
      simp only [decide_eq_true_eq]
      constructor
      · intro hno hand
        exact hno ⟨by
          rw [hl]
          exact (mem_handlesOf _ _ _).mpr ⟨p, hp, hand.1, rfl⟩, hand.2⟩
      · rintro hno ⟨hmem, hf⟩
        rw [hl] at hmem
        rcases (mem_handlesOf _ _ _).mp hmem with ⟨q, hq, hq2, hq1⟩
        have hqp : q = p := eq_of_fst_eq_of_nodup ps hPnd q p hq hp (by rw [hq1])
        exact hno ⟨by rw [← hqp]; exact hq2, hf⟩
    rw [hfix] at inv'
    exact inv'

theorem runRegWF_connect_cons (s : ConnectionManager) (w u : Nat) (ops : List RegOp) :
    runRegWF s (RegOp.connectOp w u :: ops) =
      (if u ≠ 0 ∧ getA s.user_sessions w = none then runRegWF (connect s w u) ops
       else none) := rfl

theorem runRegWF_disconnect_cons (s : ConnectionManager) (w : Nat) (ops : List RegOp) :
    runRegWF s (RegOp.disconnectOp w :: ops) =
      (disconnect s w) >>= (fun s1 => runRegWF s1 ops) := rfl

theorem runRegWF_subscribe_cons (s : ConnectionManager) (w : Nat) (ch : String)
    (ops : List RegOp) :
    runRegWF s (RegOp.subscribeOp w ch :: ops) =
      ((subscribe_to_channel s w ch).map (fun p => p.1)) >>=
        (fun s1 => runRegWF s1 ops) := rfl

theorem runRegWF_unsubscribe_cons (s : ConnectionManager) (w : Nat) (ch : String)
    (ops : List RegOp) :
    runRegWF s (RegOp.unsubscribeOp w ch :: ops) =
      runRegWF (unsubscribe_from_channel s w ch).1 ops := rfl

theorem runRegWF_sendToUser_cons (s : ConnectionManager) (u : Nat) (failed : List Nat)
    (ops : List RegOp) :
    runRegWF s (RegOp.sendToUserOp u failed :: ops) =
      (send_to_user s u failed) >>= (fun s1 => runRegWF s1 ops) := rfl

theorem runRegWF_inv :
    ∀ (ops : List RegOp) (ps : List (Nat × Nat)) (s s' : ConnectionManager),
      RegInv ps s → runRegWF s ops = some s' →
      RegInv (ops.foldl liveStep ps) s' := by
  intro ops
  induction ops with
  | nil =>
    intro ps s s' inv h
    rw [runRegWF] at h
    rw [List.foldl_nil, ← Option.some.inj h]
    exact inv
  | cons op ops ih =>
    intro ps s s' inv h
    rw [List.foldl_cons]
    cases op with
    | connectOp w u =>
      rw [runRegWF_connect_cons] at h
      by_cases hg : u ≠ 0 ∧ getA s.user_sessions w = none
      · rw [if_pos hg] at h
        exact ih _ _ _ (RegInv_connect ps s w u inv hg.1 hg.2) h
      · rw [if_neg hg] at h
        exact Option.noConfusion h
    | disconnectOp w =>
      rw [runRegWF_disconnect_cons] at h
      rcases RegInv_disconnect ps s w inv with ⟨s1, hd, inv1⟩
      rw [hd] at h
      exact ih _ _ _ inv1 h
    | subscribeOp w ch =>
      rw [runRegWF_subscribe_cons] at h
      cases hsub : subscribe_to_channel s w ch with
      | none =>
        rw [hsub] at h
        simp at h
      | some r =>
        rw [hsub] at h
        simp only [Option.map_some', Option.some_bind] at h
        have hpres := subscribe_preserves s w ch r.1 r.2 (by rw [hsub])
        exact ih _ _ _ (RegInv_of_fields ps s r.1 inv hpres.1 hpres.2) h
    | unsubscribeOp w ch =>
      rw [runRegWF_unsubscribe_cons] at h
      have hpres := unsubscribe_preserves s w ch
      exact ih _ _ _ (RegInv_of_fields ps s _ inv hpres.1 hpres.2) h
    | sendToUserOp u failed =>
      rw [runRegWF_sendToUser_cons] at h
      rcases RegInv_send_to_user ps s u failed inv with ⟨s1, hsend, inv1⟩
      rw [hsend] at h
      exact ih _ _ _ inv1 h

/-- C1 (amended).  Provided every `connect` registers a nonzero user id on a
fresh handle — which is how the endpoint drives the registry, since each
transport connection is a new handle — the registry invariant holds after
every sequence of connect/disconnect/send_to_user/subscribe/unsubscribe
operations: every present `active_connections` entry is non-empty, a handle
is in the reverse map iff it sits in some user's connection list, and
`is_user_connected u` is true iff some handle connected for `u` has not yet
been disconnected.  For user id 0, or re-connecting an already-registered
handle, the invariant fails (see the counterexample and C10). -/
theorem c1_registry_invariant_amended (ops : List RegOp) (s : ConnectionManager)
    (hrun : runRegWF initManager ops = some s) :
    (∀ u l, getA s.active_connections u = some l → l ≠ []) ∧
    (∀ w, (getA s.user_sessions w).isSome ↔
      ∃ u l, getA s.active_connections u = some l ∧ w ∈ l) ∧
    (∀ u, is_user_connected s u = true ↔ ∃ w, (w, u) ∈ livePairs ops) := by
  obtain ⟨hACnd, hUSnd, hPnd, hAC, hNE, hUS, hNZ⟩ :=
    runRegWF_inv ops [] initManager s RegInv_init hrun
  refine ⟨hNE, ?_, ?_⟩
  · intro w
    constructor
    · intro hsome
      rcases Option.isSome_iff_exists.mp hsome with ⟨u, hu⟩
      have hmem : (w, u) ∈ ops.foldl liveStep [] := (hUS w u).mp hu
      have hwh : w ∈ handlesOf (ops.foldl liveStep []) u :=
        (mem_handlesOf _ _ _).mpr ⟨(w, u), hmem, rfl, rfl⟩
      cases hac : getA s.active_connections u with
      | none =>
        exfalso
        have hh := hAC u
        rw [hac] at hh
        rw [← hh] at hwh
        simp at hwh
      | some l =>
        refine ⟨u, l, hac, ?_⟩
        have hh := hAC u
        rw [hac] at hh
        simp only [Option.getD_some] at hh
        rw [hh]
        exact hwh
    · rintro ⟨u, l, hgl, hwl⟩
      have hh := hAC u
      rw [hgl] at hh
      simp only [Option.getD_some] at hh
      rw [hh] at hwl
      rcases (mem_handlesOf _ _ _).mp hwl with ⟨p, hp, h2, h1⟩
      have hpe : p = (w, u) := by
        rw [← h1, ← h2]
      rw [hpe] at hp
      rw [← hUS w u] at hp
      rw [hp]
      rfl
  · intro u
    rw [is_user_connected]
    cases hac : getA s.active_connections u with
    | none =>
      have hh := hAC u
      rw [hac] at hh
      simp only [Option.getD_none] at hh
      constructor
      · intro hf
        exact absurd hf (by simp)
      · rintro ⟨w, hmem⟩
        have hx : w ∈ handlesOf (ops.foldl liveStep []) u :=
          (mem_handlesOf _ _ _).mpr ⟨(w, u), hmem, rfl, rfl⟩
        rw [← hh] at hx
        simp at hx
    | some l =>
      have hlne : l ≠ [] := hNE u l hac
      have hh := hAC u
      rw [hac] at hh
      simp only [Option.getD_some] at hh
      constructor
      · intro _
        rcases List.exists_mem_of_ne_nil l hlne with ⟨x, hx⟩
        rw [hh] at hx
        rcases (mem_handlesOf _ _ _).mp hx with ⟨p, hp, h2, h1⟩
        refine ⟨p.1, ?_⟩
        have hpe : p = (p.1, u) := by
          rw [← h2]
        rw [← hpe]
        exact hp
      · intro _
        simp only [decide_eq_true_eq]
        exact List.length_pos.mpr hlne

/-- C1 witness: the single well-formed trace connecting handle 7 for user 1
leaves the invariant observably true. -/
theorem c1_registry_invariant_amended_witness :
    runRegWF initManager [RegOp.connectOp 7 1] = some managerOne ∧
    (getA managerOne.user_sessions 7).isSome ∧
    is_user_connected managerOne 1 = true :=
  ⟨by decide,
    ((c1_registry_invariant_amended [RegOp.connectOp 7 1] managerOne (by decide)).2.1
        7).mpr ⟨1, [7], by decide, by decide⟩,
    ((c1_registry_invariant_amended [RegOp.connectOp 7 1] managerOne (by decide)).2.2
        1).mpr ⟨7, by decide⟩⟩

/-- C1 counterexample.  The sequence `connect(5, user 0); disconnect(5)` — an
operation sequence the claim quantifies over — ends with handle 5 still in
user 0's connection list but absent from the reverse map (breaking the
handle/reverse-map invariant) and `is_user_connected 0` still true although
every handle registered to user 0 was already disconnected (breaking the
presence invariant). -/
theorem c1_counterexample :
    runReg initManager [RegOp.connectOp 5 0, RegOp.disconnectOp 5] = some managerLeak ∧
    getA managerLeak.user_sessions 5 = none ∧
    5 ∈ (getA managerLeak.active_connections 0).getD [] ∧
    is_user_connected managerLeak 0 = true ∧
    livePairs [RegOp.connectOp 5 0, RegOp.disconnectOp 5] = [] := by
  decide

end BroSkate
